import Mathlib

/-!
Verification of gositemap

A shallow embedding of `gositemap.go` (package `gositemap`): the entry store, the
character filter, the segmentation of the stock (`SplitStock`) and the generation of
the XML documents, followed by the properties proved about them.

Conventions of the embedding.
* Go strings are Lean strings (valid UTF-8); `len(s)` is the byte length
  `String.utf8ByteSize`, `range s` walks the characters. The escaping pass of `filters`
  is also given on the bytes of an arbitrary Go string (`escapeBytes`), where `range`
  reads every invalid byte as U+FFFD; on valid UTF-8 the two agree.
* `[]*SitemapElement` is a list of elements: the elements are never mutated once made.
* `map[string]V` is an association list with unique keys, in insertion order; the
  order is a representation only (Go iterates a map in an unspecified order).
* Go `int` counters are natural numbers; the one subtraction (`x - previos`) is taken
  in the integers. The size accumulator stays below 52428800 plus the size of one entry,
  far from the 64-bit range.
* Functions of the Go standard library that are not modelled here are fields of
  `GoLib`; every theorem holds for every such library.
* The calls of `s.Logger.Printf` record their format string in the logger and
  return; the write to the sink itself is not modelled further.
-/

namespace Gositemap

/-! ## Constants -/

/-- The constant `SITEMAPLSCHEMA`. -/
def SITEMAPLSCHEMA : String := "http://www.sitemaps.org/schemas/sitemap/0.9"

/-- The constant `ERRORPRIORITETYRANGE`. -/
def ERRORPRIORITETYRANGE : String :=
  "ошибка в указании значения приоритета, он должен быть в пределах 0.0 - 1.0"

/-- The constant `ERROREMPTYSTACK`. -/
def ERROREMPTYSTACK : String :=
  "стек элементов для формирования карты сайта - пуст, сформируйте его, а потом вызывайте генерацию карты"

/-- The constant `INFOCREATEDSITEMAP`. -/
def INFOCREATEDSITEMAP : String := "Успешно создана карта сайта"

/-- The constant `LOGPREFIX`. -/
def LOGPREFIX : String := "[gositemap] "

/-- The constant `LOGFLAGS = log.Ldate | log.Ltime | log.Lshortfile`, that is
`1 | 2 | 16`. -/
def LOGFLAGS : Nat := 19

/-! ## Values of type `float64` -/

/-- A `float64` value: not-a-number, an infinity, or the finite number
`(-1)^neg * mant * 2^exp`. Every finite `float64` (both zeros included) has this
form; the type is larger than `float64`, which only strengthens what is proved for
all of its values. -/
inductive Float64 where
  | nan
  | inf (neg : Bool)
  | fin (neg : Bool) (mant : Nat) (exp : Int)
  deriving DecidableEq, Repr

namespace Float64

/-- The literal `0.0`. -/
def zero : Float64 := .fin false 0 0

/-- The literal `1.0`. -/
def one : Float64 := .fin false 1 0

/-- The signed mantissa of a finite value once its exponent is lowered to `k`
(`k` at most the exponent): the value is `scaled * 2^k`. -/
def scaled (neg : Bool) (mant : Nat) (exp k : Int) : Int :=
  (if neg then -1 else 1) * (mant : Int) * 2 ^ (exp - k).toNat

/-- The comparison `a < b` of IEEE 754: false as soon as one side is not a number. -/
def lt : Float64 → Float64 → Bool
  | .nan, _ => false
  | _, .nan => false
  | .inf na, .inf nb => na && !nb
  | .inf na, .fin _ _ _ => na
  | .fin _ _ _, .inf nb => !nb
  | .fin na ma ea, .fin nb mb eb =>
    decide (scaled na ma ea (min ea eb) < scaled nb mb eb (min ea eb))

/-- The comparison `a <= b` of IEEE 754: false as soon as one side is not a number. -/
def le : Float64 → Float64 → Bool
  | .nan, _ => false
  | _, .nan => false
  | .inf na, .inf nb => na || !nb
  | .inf na, .fin _ _ _ => na
  | .fin _ _ _, .inf nb => !nb
  | .fin na ma ea, .fin nb mb eb =>
    decide (scaled na ma ea (min ea eb) ≤ scaled nb mb eb (min ea eb))

end Float64

/-! ## The data model -/

/-- The type `SitemapElement`. -/
structure SitemapElement where
  Loc : String
  Changefreq : String
  Lastmod : String
  Priority : Float64
  deriving DecidableEq, Repr

/-- A Go `map[K]V`: an association list whose keys are distinct. -/
abbrev GoMap (K V : Type) := List (K × V)

namespace GoMap

/-- The assignment `m[k] = v`: replaces the value of an existing key, adds the key
otherwise. -/
def set {K V : Type} [DecidableEq K] : GoMap K V → K → V → GoMap K V
  | [], k, v => [(k, v)]
  | (k', v') :: t, k, v => if k' = k then (k, v) :: t else (k', v') :: set t k v

/-- The lookup `m[k]` with its presence flag. -/
def get? {K V : Type} [DecidableEq K] (m : GoMap K V) (k : K) : Option V :=
  (m.find? (fun kv => decide (kv.1 = k))).map Prod.snd

/-- The keys of the map. -/
def keys {K V : Type} (m : GoMap K V) : List K := m.map Prod.fst

end GoMap

/-- An `io.Writer` handed to the logger: the standard output or a writer of the
caller. -/
inductive Writer where
  | stdout
  | custom (id : Nat)
  deriving DecidableEq, Repr

/-- A `*log.Logger`: its sink (`nil` is `none`), prefix and flags, and the format
strings handed to `Printf` so far. -/
structure Logger where
  out : Option Writer
  pfx : String
  flags : Nat
  lines : List String
  deriving DecidableEq, Repr

/-- The Go function `log.New(out, prefix, flag)`. -/
def Logger.New (out : Option Writer) (pfx : String) (flags : Nat) : Logger :=
  { out := out, pfx := pfx, flags := flags, lines := [] }

/-- The Go function `l.Printf(format, ...)`: the format string of the call is recorded, its
arguments are not. -/
def Logger.Printf (l : Logger) (format : String) : Logger :=
  { l with lines := l.lines ++ [format] }

/-- The type `Sitemap`. -/
structure Sitemap where
  Stock : List SitemapElement
  Splits : GoMap String (List SitemapElement)
  Logger : Logger
  debug : Bool
  deriving DecidableEq, Repr

/-- The standard library as far as the package calls it without being modelled here.
`URL` is `*url.URL`, `Time` is `time.Time`. -/
structure GoLib (URL Time : Type) where
  /-- The Go function `url.Parse`: the parsed URL or the error message. -/
  urlParse : String → Except String URL
  /-- The Go function `(*url.URL).String`. -/
  urlString : URL → String
  /-- The Go function `time.Time.Format` with its layout. -/
  timeFormat : Time → String → String
  /-- The Go function `strconv.FormatFloat` with format byte, precision and bit size. -/
  formatFloat : Float64 → Char → Int → Nat → String
  /-- The Go function `filepath.Join` of two elements. -/
  filepathJoin : String → String → String
  /-- The Go function `os.Create`: the error message when the file cannot be created. -/
  osCreate : String → Option String
  /-- The Go function `(*os.File).Write` on the file of that path: bytes written or the error. -/
  fileWrite : String → String → Except String Nat

variable {URL Time : Type}

/-! ## `NewSitemap`, `Sizer` -/

/-- The function `NewSitemap(logout, debug)`. -/
def NewSitemap (logout : Option Writer) (debug : Bool) : Sitemap :=
  if logout ≠ none then
    { Stock := [], Splits := [], debug := debug,
      Logger := Logger.New (some Writer.stdout) LOGPREFIX LOGFLAGS }
  else
    { Stock := [], Splits := [], debug := debug,
      Logger := Logger.New logout LOGPREFIX LOGFLAGS }

/-- The function `Sizer(x)`: the estimated size of an element. -/
def Sizer (lib : GoLib URL Time) (x : SitemapElement) : Nat :=
  let total := 0
  let total := total + x.Loc.utf8ByteSize
  let total := total + (lib.formatFloat x.Priority 'e' (-1) 64).utf8ByteSize
  let total := total + x.Changefreq.utf8ByteSize
  let total := total + x.Lastmod.utf8ByteSize
  total

/-! ## `SplitStock` -/

/-- The local variables of `SplitStock`. -/
structure SplitState where
  result : GoMap String (List SitemapElement)
  counts : Nat
  previos : Nat
  size : Nat
  x_save : Nat
  temp : List SitemapElement
  deriving DecidableEq, Repr

/-- The variables of `SplitStock` before the loop. -/
def SplitState.init : SplitState :=
  { result := [], counts := 0, previos := 0, size := 0, x_save := 0, temp := [] }

/-- The Go function `fmt.Sprintf("%s%d", filename, counts)`. -/
def sprintfSD (filename : String) (counts : Nat) : String :=
  filename ++ toString counts

/-- One turn of the loop of `SplitStock`, at index `x` with `e = stock[x]`. -/
def splitStep (lib : GoLib URL Time) (filename : String) (st : SplitState)
    (xe : Nat × SitemapElement) : SplitState :=
  let x := xe.1
  let e := xe.2
  let size := st.size + Sizer lib e
  if size ≥ 52428800 then
    { st with
      x_save := x
      size := 0
      result := GoMap.set st.result (sprintfSD filename st.counts) st.temp
      counts := st.counts + 1
      temp := [] }
  else if (x : Int) - (st.previos : Int) ≥ 50000 then
    { st with
      x_save := x
      size := size
      result := GoMap.set st.result (sprintfSD filename st.counts) st.temp
      temp := []
      previos := x
      counts := st.counts + 1 }
  else
    let temp := st.temp ++ [e]
    { st with
      x_save := x
      size := size
      temp := temp
      result :=
        if st.counts = 0 then GoMap.set st.result filename temp
        else GoMap.set st.result (sprintfSD filename st.counts) temp }

/-- The variables of `SplitStock` after the loop over the whole stock. -/
def splitLoop (lib : GoLib URL Time) (filename : String) (stock : List SitemapElement) :
    SplitState :=
  stock.enum.foldl (splitStep lib filename) SplitState.init

/-- The function `SplitStock(filename, stock)`. The statement after the loop has an
empty body and the two `debug` branches only print. -/
def SplitStock (lib : GoLib URL Time) (filename : String) (stock : List SitemapElement) :
    GoMap String (List SitemapElement) :=
  (splitLoop lib filename stock).result

/-- The estimated size of a list of elements: the sum of `Sizer` over it. -/
def sumSizer (lib : GoLib URL Time) (l : List SitemapElement) : Nat :=
  (l.map (Sizer lib)).sum

/-- What holds of the variables of `SplitStock` when the loop is about to read index
`n`: the buffer has at most 50000 entries, all read since `previos`; its estimated size
is at most the accumulator, which is below the limit; every segment stored so far is
within both limits. -/
structure SplitInv (lib : GoLib URL Time) (n : Nat) (st : SplitState) : Prop where
  temp_len : st.temp.length ≤ 50000
  temp_prev : st.temp.length + st.previos ≤ n
  temp_size : sumSizer lib st.temp ≤ st.size
  size_lt : st.size < 52428800
  seg_len : ∀ kv ∈ st.result, kv.2.length ≤ 50000
  seg_size : ∀ kv ∈ st.result, sumSizer lib kv.2 < 52428800

/-! ## The turns of the loop of `SplitStock` -/

/-- The variables of `SplitStock` when the loop is about to read index `x`: the loop
has run over `stock[0..x)`. -/
def stateBefore (lib : GoLib URL Time) (base : String) (stock : List SitemapElement)
    (x : Nat) : SplitState :=
  splitLoop lib base (stock.take x)

/-- The size rule fires at index `x`: the accumulator with the size of `stock[x]` added
has reached 52428800. -/
def sizeRuleFires (lib : GoLib URL Time) (base : String) (stock : List SitemapElement)
    (x : Nat) : Bool :=
  match stock[x]? with
  | none => false
  | some e => decide ((stateBefore lib base stock x).size + Sizer lib e ≥ 52428800)

/-- The count rule fires at index `x`: the size rule does not, and `x - previos` has
reached 50000. -/
def countRuleFires (lib : GoLib URL Time) (base : String) (stock : List SitemapElement)
    (x : Nat) : Bool :=
  match stock[x]? with
  | none => false
  | some e =>
    !decide ((stateBefore lib base stock x).size + Sizer lib e ≥ 52428800) &&
      decide ((x : Int) - ((stateBefore lib base stock x).previos : Int) ≥ 50000)

/-- The loop crosses a boundary at index `x`: one of the two rules fires there. -/
def crossesBoundary (lib : GoLib URL Time) (base : String) (stock : List SitemapElement)
    (x : Nat) : Bool :=
  sizeRuleFires lib base stock x || countRuleFires lib base stock x

/-- What the buffer and the stored segments are made of when the loop has run over
the entries `l`: the buffer is a tail `l[k..)` and every stored segment a slice
`l[i..j)`, over indices at which no boundary was crossed. -/
structure SliceInv (lib : GoLib URL Time) (base : String) (l : List SitemapElement)
    (st : SplitState) : Prop where
  temp_slice : ∃ k, k ≤ l.length ∧ st.temp = l.drop k ∧
    ∀ t, k ≤ t → t < l.length → crossesBoundary lib base l t = false
  seg_slice : ∀ kv ∈ st.result, ∃ i j, i ≤ j ∧ j ≤ l.length ∧
    kv.2 = (l.take j).drop i ∧
    ∀ t, i ≤ t → t < j → crossesBoundary lib base l t = false

/-- How the segment counter and the buffer go together when the loop is about to read
index `n`: with the counter at 0 nothing was dropped and `previos` is 0; afterwards
the buffer has fewer than 50000 entries. -/
structure CountInv (n : Nat) (st : SplitState) : Prop where
  zero : st.counts = 0 → st.previos = 0 ∧ st.temp.length = n
  pos : 0 < st.counts → st.temp.length + st.previos + 1 ≤ n ∧ st.temp.length < 50000

/-! ## `filters`, `converttime`, `NewSitemapElementAdd` -/

/-- The table `mask` of `filters` after its five assignments. -/
def mask : GoMap Char String :=
  let mask : GoMap Char String := []
  let mask := GoMap.set mask '&' "&amp;"
  let mask := GoMap.set mask (Char.ofNat 39) "&apos;"
  let mask := GoMap.set mask (Char.ofNat 34) "&quot;"
  let mask := GoMap.set mask '>' "&gt;"
  let mask := GoMap.set mask '<' "&lt;"
  mask

/-- The body of the loop of `filters` for the character `x`: the characters of the
mask are appended one by one when `x` has one, `x` itself otherwise. -/
def filterStep (result : List Char) (x : Char) : List Char :=
  match mask.get? x with
  | some m => m.toList.foldl (fun r sym => r ++ [sym]) result
  | none => result ++ [x]

/-- The first pass of `filters`: `string(result)` after the loop over `str`. -/
def escapePass (str : String) : String :=
  String.mk (str.toList.foldl filterStep [])

/-- The function `filters(str)`: the escaped string goes through `url.Parse`; the
session comes back with what was logged. -/
def filters (lib : GoLib URL Time) (s : Sitemap) (str : String) :
    Sitemap × Except String String :=
  match lib.urlParse (escapePass str) with
  | .error err => ({ s with Logger := s.Logger.Printf err }, .error err)
  | .ok u => (s, .ok (lib.urlString u))

/-- The function `converttime(t)`. -/
def converttime (lib : GoLib URL Time) (t : Time) : String :=
  lib.timeFormat t "2006-02-01"

/-- The function `NewSitemapElementAdd(loc, changefreq, lastmod, priorit)`: the session
after the call and the error returned (`none` is `nil`). -/
def NewSitemapElementAdd (lib : GoLib URL Time) (s : Sitemap) (loc changefreq : String)
    (lastmod : Time) (priorit : Float64) : Sitemap × Option String :=
  if Float64.lt priorit Float64.zero || Float64.lt Float64.one priorit then
    ({ s with Logger := s.Logger.Printf ERRORPRIORITETYRANGE }, some ERRORPRIORITETYRANGE)
  else
    match filters lib s loc with
    | (s1, .error err) => ({ s1 with Logger := s1.Logger.Printf err }, some err)
    | (s1, .ok result) =>
      let res : SitemapElement :=
        { Loc := result
          Changefreq := changefreq
          Lastmod := converttime lib lastmod
          Priority := priorit }
      ({ s1 with Stock := s1.Stock ++ [res] }, none)

/-! ## `SplitFilePath` -/

/-- The Go function `filepath.Split` (slash-separated paths): the path up to and with its last
separator, and the rest. -/
def filepathSplit (path : String) : String × String :=
  let rev := path.toList.reverse
  (String.mk (rev.dropWhile (fun c => c != '/')).reverse,
   String.mk (rev.takeWhile (fun c => c != '/')).reverse)

/-- The scan of `filepath.Ext` from the end of the path: `acc` holds what was passed. -/
def extScan : List Char → List Char → List Char
  | [], _ => []
  | c :: t, acc =>
    if c = '/' then [] else if c = '.' then '.' :: acc else extScan t (c :: acc)

/-- The Go function `filepath.Ext`: the suffix from the last dot of the last element, or nothing. -/
def filepathExt (path : String) : String :=
  String.mk (extScan path.toList.reverse [])

/-- The pieces of `strings.Split` for a non-empty separator: `skip` characters of a
separator just matched are still to be passed, `cur` is the piece so far, reversed. -/
def splitScan (sep : List Char) : List Char → Nat → List Char → List (List Char)
  | [], _, cur => [cur.reverse]
  | _ :: t, skip + 1, cur => splitScan sep t skip cur
  | c :: t, 0, cur =>
    if sep.isPrefixOf (c :: t) then cur.reverse :: splitScan sep t (sep.length - 1) []
    else splitScan sep t 0 (c :: cur)

/-- The Go function `strings.Split(s, sep)`: with an empty separator the string is exploded into its
characters (none for the empty string). -/
def stringsSplit (s sep : String) : List String :=
  if sep = "" then s.toList.map String.singleton
  else (splitScan sep.toList s.toList 0 []).map String.mk

/-- The function `SplitFilePath(path)`: `none` when the index `[0]` is out of range. -/
def SplitFilePath (path : String) : Option (String × String × String) :=
  let (dir, f) := filepathSplit path
  let ext := filepathExt f
  match (stringsSplit f ext)[0]? with
  | none => none
  | some filename => some (dir, filename, ext)

/-! ## The XML document -/

/-- The type `SitemapURL`. -/
structure SitemapURL where
  Loc : String
  Lastmod : String
  Changefreq : String
  Priority : Float64
  deriving DecidableEq, Repr

/-- The type `SitemapXML`. -/
structure SitemapXML where
  XmlNS : String
  URLS : List SitemapURL
  deriving DecidableEq, Repr

/-- The Go function `isInCharacterRange` of `encoding/xml`: the characters XML allows. -/
def isInCharacterRange (r : Char) : Bool :=
  r.toNat = 0x09 || r.toNat = 0x0A || r.toNat = 0x0D ||
  (0x20 ≤ r.toNat && r.toNat ≤ 0xD7FF) ||
  (0xE000 ≤ r.toNat && r.toNat ≤ 0xFFFD) ||
  (0x10000 ≤ r.toNat && r.toNat ≤ 0x10FFFF)

/-- What `escapeText` of `encoding/xml` writes for one character of marshalled text. -/
def xmlEscapeChar (r : Char) : String :=
  if r = Char.ofNat 34 then "&#34;"
  else if r = Char.ofNat 39 then "&#39;"
  else if r = '&' then "&amp;"
  else if r = '<' then "&lt;"
  else if r = '>' then "&gt;"
  else if r = Char.ofNat 9 then "&#x9;"
  else if r = Char.ofNat 10 then "&#xA;"
  else if r = Char.ofNat 13 then "&#xD;"
  else if !isInCharacterRange r then String.singleton (Char.ofNat 0xFFFD)
  else String.singleton r

/-- The Go function `xml.EscapeText`, which the marshaller applies to every string it writes as text
or as an attribute value. -/
def xmlEscapeText (s : String) : String :=
  String.join (s.toList.map xmlEscapeChar)

/-- An element with text content, as the marshaller writes it. -/
def xmlElem (name text : String) : String :=
  "<" ++ name ++ ">" ++ xmlEscapeText text ++ "</" ++ name ++ ">"

/-- The test of `omitempty` on a `float64`: the value equals zero. -/
def floatIsZero : Float64 → Bool
  | .fin _ mant _ => decide (mant = 0)
  | _ => false

/-- The marshalling of one `SitemapURL`: `loc`, then `lastmod`, `changefreq` and
`priority` unless empty (`omitempty`). -/
def marshalURL (lib : GoLib URL Time) (u : SitemapURL) : String :=
  "<url>" ++ xmlElem "loc" u.Loc ++
  (if u.Lastmod = "" then "" else xmlElem "lastmod" u.Lastmod) ++
  (if u.Changefreq = "" then "" else xmlElem "changefreq" u.Changefreq) ++
  (if floatIsZero u.Priority then ""
   else xmlElem "priority" (lib.formatFloat u.Priority 'g' (-1) 64)) ++
  "</url>"

/-- A double quote. -/
def dquote : String := String.singleton (Char.ofNat 34)

/-- The Go function `xml.MarshalIndent(siteXML, "", "")`: with an empty prefix and an empty indent
the encoder writes no line breaks. -/
def xmlMarshalIndent (lib : GoLib URL Time) (siteXML : SitemapXML) : String :=
  "<urlset xmlns=" ++ dquote ++ xmlEscapeText siteXML.XmlNS ++ dquote ++ ">" ++
  String.join (siteXML.URLS.map (marshalURL lib)) ++ "</urlset>"

/-- The Go function `xml.Header`. -/
def xmlHeader : String :=
  "<?xml version=" ++ dquote ++ "1.0" ++ dquote ++ " encoding=" ++ dquote ++ "UTF-8" ++
  dquote ++ "?>\n"

/-! ## `GenerateXMLSitemap` -/

/-- The loop of `GenerateXMLSitemap` that builds `siteXML.URLS` from a segment. -/
def segmentURLS (segment : List SitemapElement) : List SitemapURL :=
  segment.foldl (fun urls x =>
    urls ++ [{ Lastmod := x.Lastmod, Changefreq := x.Changefreq, Priority := x.Priority,
               Loc := x.Loc }]) []

/-- The text `GenerateXMLSitemap` writes for a segment: `outXMLString`. -/
def outXMLString (lib : GoLib URL Time) (segment : List SitemapElement) : String :=
  xmlHeader ++ xmlMarshalIndent lib { XmlNS := SITEMAPLSCHEMA, URLS := segmentURLS segment }

/-- How a call ends: it returns `nil`, returns an error, or panics. -/
inductive Outcome where
  | ok
  | error (msg : String)
  | panic
  deriving DecidableEq, Repr

/-- The result of `GenerateXMLSitemap`: the session, the files (path and content) and
how the call ended. -/
structure GenResult where
  s : Sitemap
  files : GoMap String String
  outcome : Outcome
  deriving DecidableEq, Repr

/-- The loop of `GenerateXMLSitemap` over the segments, here in the order of the
association list. -/
def generateSegments (lib : GoLib URL Time) (dir ext : String) :
    List (String × List SitemapElement) → Sitemap → GoMap String String → GenResult
  | [], s, files => { s := s, files := files, outcome := .ok }
  | (fname, segment) :: rest, s, files =>
    let s := if s.debug then
        { s with Logger := s.Logger.Printf "SEGMENT: fname:`%s`, outfputfilename:`%s`\n" }
      else s
    let path := lib.filepathJoin dir (fname ++ ext)
    match lib.osCreate path with
    | some err =>
      { s := { s with Logger := s.Logger.Printf err }, files := files, outcome := .error err }
    | none =>
      let files := GoMap.set files path ""
      let out := outXMLString lib segment
      let s := if s.debug then { s with Logger := s.Logger.Printf "OUTXML: %v\x0b" } else s
      match lib.fileWrite path out with
      | .error err =>
        { s := { s with Logger := s.Logger.Printf err }, files := files,
          outcome := .error err }
      | .ok _ =>
        let files := GoMap.set files path out
        let s := if s.debug then
            { s with Logger :=
                s.Logger.Printf "[%s] Успешно создана карта сайта размером `%3d` байт\n" }
          else { s with Logger := s.Logger.Printf INFOCREATEDSITEMAP }
        generateSegments lib dir ext rest s files

/-- The function `GenerateXMLSitemap(filenameWithFullPath)` on the session `s` with the
files `files` on disk. -/
def GenerateXMLSitemap (lib : GoLib URL Time) (s : Sitemap) (files : GoMap String String)
    (filenameWithFullPath : String) : GenResult :=
  if s.Stock.length = 0 then
    { s := { s with Logger := s.Logger.Printf ERROREMPTYSTACK }, files := files,
      outcome := .error ERROREMPTYSTACK }
  else
    match SplitFilePath filenameWithFullPath with
    | none => { s := s, files := files, outcome := .panic }
    | some (dir, filename, ext) =>
      let s := if s.debug then
          { s with Logger := s.Logger.Printf "DIR: `%s` FILENAME: `%s` EXT: `%s`\n" }
        else s
      let s := if s.debug then
          let l := s.Logger.Printf ">>>>SPLIT RESULT FILENAME: %v\n"
          { s with Logger := l.Printf ">>>>SPLIT RESULT: %v\n" }
        else s
      let s := { s with Splits := SplitStock lib filename s.Stock }
      generateSegments lib dir ext s.Splits s files

/-! ## The escaping as the specification words it -/

/-- The named entity of a reserved character, the character itself otherwise. -/
def escapeCharSpec (c : Char) : String :=
  if c = '&' then "&amp;"
  else if c = Char.ofNat 39 then "&apos;"
  else if c = Char.ofNat 34 then "&quot;"
  else if c = '>' then "&gt;"
  else if c = '<' then "&lt;"
  else String.singleton c

/-- The escaping as the specification words it: the concatenation, over the characters
of the string from left to right, of what `escapeCharSpec` gives. -/
def escapeSpec (s : String) : String :=
  String.mk (s.toList.flatMap (fun c => (escapeCharSpec c).toList))

/-! ## The escaping pass on the bytes of a Go string

A Go string is a sequence of bytes that need not be valid UTF-8. The loop
`for _, x := range str` of `filters` decodes it rune by rune, and reads every byte that
starts no valid encoding as the rune U+FFFD, one byte wide. Bytes are natural numbers
below 256. -/

/-- The UTF-8 encoding of a character: the bytes of a Go string that holds it. -/
def utf8EncodeChar (c : Char) : List Nat :=
  let v := c.toNat
  if v < 0x80 then [v]
  else if v < 0x800 then [0xC0 + v / 64, 0x80 + v % 64]
  else if v < 0x10000 then [0xE0 + v / 4096, 0x80 + v / 64 % 64, 0x80 + v % 64]
  else [0xF0 + v / 262144, 0x80 + v / 4096 % 64, 0x80 + v / 64 % 64, 0x80 + v % 64]

/-- The bytes of a valid UTF-8 string: the encodings of its characters in a row. -/
def utf8Bytes (s : String) : List Nat :=
  s.toList.flatMap utf8EncodeChar

/-- A continuation byte, between `locb = 0x80` and `hicb = 0xBF`. -/
def isCont (b : Nat) : Bool :=
  decide (0x80 ≤ b) && decide (b ≤ 0xBF)

/-- The Go function `decoderune` of the runtime at the head of the bytes `s`, which the
`range` loop calls on a byte that is not ASCII: the rune and its width, or U+FFFD and
width 1 when the bytes start no valid encoding (`s[0] & mask` is a remainder, a shift
a multiplication). -/
def decoderune (s : List Nat) : Nat × Nat :=
  match s with
  | [] => (0xFFFD, 1)
  | s0 :: t =>
    if 0xC0 ≤ s0 ∧ s0 < 0xE0 then
      match t with
      | s1 :: _ =>
        if isCont s1 then
          let r := s0 % 32 * 64 + s1 % 64
          if 0x7F < r then (r, 2) else (0xFFFD, 1)
        else (0xFFFD, 1)
      | _ => (0xFFFD, 1)
    else if 0xE0 ≤ s0 ∧ s0 < 0xF0 then
      match t with
      | s1 :: s2 :: _ =>
        if isCont s1 && isCont s2 then
          let r := s0 % 16 * 4096 + s1 % 64 * 64 + s2 % 64
          if 0x7FF < r ∧ ¬ (0xD800 ≤ r ∧ r ≤ 0xDFFF) then (r, 3) else (0xFFFD, 1)
        else (0xFFFD, 1)
      | _ => (0xFFFD, 1)
    else if 0xF0 ≤ s0 ∧ s0 < 0xF8 then
      match t with
      | s1 :: s2 :: s3 :: _ =>
        if isCont s1 && isCont s2 && isCont s3 then
          let r := s0 % 8 * 262144 + s1 % 64 * 4096 + s2 % 64 * 64 + s3 % 64
          if 0xFFFF < r ∧ r ≤ 0x10FFFF then (r, 4) else (0xFFFD, 1)
        else (0xFFFD, 1)
      | _ => (0xFFFD, 1)
    else (0xFFFD, 1)

/-- The runes that `for _, x := range str` yields over the bytes of `str`: an ASCII
byte is its own rune, any other byte goes through `decoderune`; `skip` bytes of the
rune just decoded are still to be passed. -/
def rangeRunes : List Nat → Nat → List Char
  | [], _ => []
  | _ :: t, skip + 1 => rangeRunes t skip
  | b :: t, 0 =>
    if b < 0x80 then Char.ofNat b :: rangeRunes t 0
    else Char.ofNat (decoderune (b :: t)).1 :: rangeRunes t ((decoderune (b :: t)).2 - 1)

/-- The first pass of `filters` on a Go string given by its bytes: `string(result)`
after the loop over the runes of `str`. -/
def escapeBytes (str : List Nat) : String :=
  String.mk ((rangeRunes str 0).foldl filterStep [])

/-! ## An inverse of the escaping -/

/-- The decoding of the escaped characters: each of the five entities gives back its
character, every other character stays; `skip` characters of an entity just decoded
are still to be passed. -/
def unescapeScan : List Char → Nat → List Char
  | [], _ => []
  | _ :: t, skip + 1 => unescapeScan t skip
  | c :: t, 0 =>
    if c = '&' then
      if "amp;".toList.isPrefixOf t then '&' :: unescapeScan t 4
      else if "apos;".toList.isPrefixOf t then Char.ofNat 39 :: unescapeScan t 5
      else if "quot;".toList.isPrefixOf t then Char.ofNat 34 :: unescapeScan t 5
      else if "gt;".toList.isPrefixOf t then '>' :: unescapeScan t 3
      else if "lt;".toList.isPrefixOf t then '<' :: unescapeScan t 3
      else c :: unescapeScan t 0
    else c :: unescapeScan t 0

/-- The decoding of an escaped string. -/
def unescape (s : String) : String := String.mk (unescapeScan s.toList 0)

/-- A character is one of the five reserved characters of `mask`. -/
def isReserved (c : Char) : Bool :=
  c = '&' || c = Char.ofNat 39 || c = Char.ofNat 34 || c = '>' || c = '<'

/-! ## A library instance for evaluation -/

/-- The `float64` value `0.5`. -/
def f0_5 : Float64 := .fin false 1 (-1)

/-- The `float64` value nearest to `0.8`. -/
def f0_8 : Float64 := .fin false 3602879701896397 (-52)

/-- An instance of the library for evaluating examples: URLs are kept as they are,
every date prints as `2017-01-01`, floats print as Go prints `0.5` and `0.8`
(`5e-01`, `8e-01` with format `e`; `0.5`, `0.8` otherwise), and files are always
created and written. -/
def sampleLib : GoLib String Unit where
  urlParse := fun s => .ok s
  urlString := fun u => u
  timeFormat := fun _ _ => "2017-01-01"
  formatFloat := fun f fmt _ _ =>
    if fmt = 'e' then (if f = f0_8 then "8e-01" else "5e-01")
    else (if f = f0_8 then "0.8" else "0.5")
  filepathJoin := fun d f => d ++ f
  osCreate := fun _ => none
  fileWrite := fun _ data => .ok data.utf8ByteSize

/-- The entry of the scenario with location `loc` and priority `p`. -/
def sampleEntry (loc : String) (p : Float64) : SitemapElement :=
  { Loc := loc, Changefreq := "daily", Lastmod := "2017-01-01", Priority := p }

/-- The entry of the scenario with location `http://example.com/a`. -/
def entryA : SitemapElement := sampleEntry "http://example.com/a" f0_5

/-- The entry of the scenario with location `http://example.com/b`. -/
def entryB : SitemapElement := sampleEntry "http://example.com/b" f0_8

/-- A stock of 50001 entries: 50000 times `entryA`, then `entryB`. -/
def boundaryStock : List SitemapElement := List.replicate 50000 entryA ++ [entryB]

/-- The `float64` value `2.0`. -/
def f2_0 : Float64 := .fin false 2 0

/-- A session as `NewSitemap` builds it for a writer of the caller, without debug
output. -/
def sampleSession : Sitemap := NewSitemap (some (Writer.custom 0)) false

/-- The session `sampleSession` after adding the location
`http://example.com/?a=1&b=2`. -/
def ampSession : Sitemap :=
  (NewSitemapElementAdd sampleLib sampleSession "http://example.com/?a=1&b=2" "daily" ()
    f0_5).1

/-- A stock of exactly 50000 entries: 50000 times `entryA`. -/
def fullStock : List SitemapElement := List.replicate 50000 entryA

/-- A stock of 100001 entries: `boundaryStock`, then 49999 times `entryA` and
`entryB`. -/
def twoBoundaryStock : List SitemapElement :=
  (boundaryStock ++ List.replicate 49999 entryA) ++ [entryB]

/-- The session `sampleSession` with the three entries of the scenario added. -/
def scenarioSession : Sitemap :=
  { sampleSession with Stock :=
      [sampleEntry "http://example.com/a" f0_5, sampleEntry "http://example.com/b" f0_8,
       sampleEntry "http://example.com/c" f0_5] }

/-- The three entries of the end-to-end scenario. -/
def scenarioStock : List SitemapElement :=
  [sampleEntry "http://example.com/a" f0_5, sampleEntry "http://example.com/b" f0_8,
   sampleEntry "http://example.com/c" f0_5]

/-! ## The association list -/

theorem GoMap.mem_set {K V : Type} [DecidableEq K] (m : GoMap K V) (k : K) (v : V)
    (kv : K × V) (h : kv ∈ GoMap.set m k v) : kv = (k, v) ∨ kv ∈ m := by
  induction m with
  | nil => simpa [GoMap.set] using h
  | cons hd t ih =>
    obtain ⟨k', v'⟩ := hd
    simp only [GoMap.set] at h
    split_ifs at h with hk
    · rcases List.mem_cons.1 h with h | h
      · exact Or.inl h
      · exact Or.inr (List.mem_cons_of_mem _ h)
    · rcases List.mem_cons.1 h with h | h
      · exact Or.inr (h ▸ List.mem_cons_self _ _)
      · rcases ih h with h | h
        · exact Or.inl h
        · exact Or.inr (List.mem_cons_of_mem _ h)

/-! ## `SplitStock`: the bounds of the segments -/

theorem sumSizer_append (lib : GoLib URL Time) (l₁ l₂ : List SitemapElement) :
    sumSizer lib (l₁ ++ l₂) = sumSizer lib l₁ + sumSizer lib l₂ := by
  simp [sumSizer]

theorem sumSizer_singleton (lib : GoLib URL Time) (e : SitemapElement) :
    sumSizer lib [e] = Sizer lib e := by
  simp [sumSizer]

theorem SplitInv.at_init (lib : GoLib URL Time) : SplitInv lib 0 SplitState.init := by
  constructor <;> simp [SplitState.init, sumSizer]

theorem SplitInv.step (lib : GoLib URL Time) (filename : String) (n : Nat)
    (st : SplitState) (e : SitemapElement) (h : SplitInv lib n st) :
    SplitInv lib (n + 1) (splitStep lib filename st (n, e)) := by
  obtain ⟨h1, h2, h3, h4, h5, h6⟩ := h
  unfold splitStep
  simp only []
  split_ifs with hs hc h0
  · refine ⟨by simp, by simp; omega, by simp [sumSizer], by simp, ?_, ?_⟩
    · intro kv hkv
      rcases GoMap.mem_set _ _ _ _ hkv with rfl | hkv
      · exact h1
      · exact h5 kv hkv
    · intro kv hkv
      rcases GoMap.mem_set _ _ _ _ hkv with rfl | hkv
      · exact lt_of_le_of_lt h3 h4
      · exact h6 kv hkv
  · refine ⟨by simp, by simp, by simp [sumSizer], by simpa using hs, ?_, ?_⟩
    · intro kv hkv
      rcases GoMap.mem_set _ _ _ _ hkv with rfl | hkv
      · exact h1
      · exact h5 kv hkv
    · intro kv hkv
      rcases GoMap.mem_set _ _ _ _ hkv with rfl | hkv
      · exact lt_of_le_of_lt h3 h4
      · exact h6 kv hkv
  · have hlen : st.temp.length + 1 ≤ 50000 := by omega
    have hsz : sumSizer lib (st.temp ++ [e]) ≤ st.size + Sizer lib e := by
      rw [sumSizer_append, sumSizer_singleton]; omega
    refine ⟨by simpa using hlen, by simp; omega, hsz, by simpa using hs, ?_, ?_⟩
    · intro kv hkv
      rcases GoMap.mem_set _ _ _ _ hkv with rfl | hkv
      · simpa using hlen
      · exact h5 kv hkv
    · intro kv hkv
      rcases GoMap.mem_set _ _ _ _ hkv with rfl | hkv
      · exact lt_of_le_of_lt hsz (by simpa using hs)
      · exact h6 kv hkv
  · have hlen : st.temp.length + 1 ≤ 50000 := by omega
    have hsz : sumSizer lib (st.temp ++ [e]) ≤ st.size + Sizer lib e := by
      rw [sumSizer_append, sumSizer_singleton]; omega
    refine ⟨by simpa using hlen, by simp; omega, hsz, by simpa using hs, ?_, ?_⟩
    · intro kv hkv
      rcases GoMap.mem_set _ _ _ _ hkv with rfl | hkv
      · simpa using hlen
      · exact h5 kv hkv
    · intro kv hkv
      rcases GoMap.mem_set _ _ _ _ hkv with rfl | hkv
      · exact lt_of_le_of_lt hsz (by simpa using hs)
      · exact h6 kv hkv

theorem SplitInv.fold (lib : GoLib URL Time) (filename : String)
    (l : List SitemapElement) :
    ∀ (n : Nat) (st : SplitState), SplitInv lib n st →
      SplitInv lib (n + l.length) ((l.enumFrom n).foldl (splitStep lib filename) st) := by
  induction l with
  | nil => intro n st h; simpa using h
  | cons e t ih =>
    intro n st h
    have := ih (n + 1) _ (SplitInv.step lib filename n st e h)
    simpa [List.enumFrom_cons, List.foldl_cons, Nat.add_assoc, Nat.add_comm 1] using this

theorem SplitInv.of_splitLoop (lib : GoLib URL Time) (filename : String)
    (stock : List SitemapElement) :
    SplitInv lib stock.length (splitLoop lib filename stock) := by
  have := SplitInv.fold lib filename stock 0 SplitState.init (SplitInv.at_init lib)
  simpa [Gositemap.splitLoop, List.enum] using this

/-! ## `SplitStock`: a stock below both limits, and the first count boundary -/

theorem sumSizer_cons (lib : GoLib URL Time) (e : SitemapElement) (l : List SitemapElement) :
    sumSizer lib (e :: l) = Sizer lib e + sumSizer lib l := by
  simp [sumSizer]

/-- A turn of the loop that crosses no boundary while the segment counter is 0. -/
theorem splitStep_place (lib : GoLib URL Time) (filename : String) (st : SplitState)
    (x : Nat) (e : SitemapElement) (hc : st.counts = 0) (hp : st.previos = 0)
    (hx : x < 50000) (hs : st.size + Sizer lib e < 52428800) :
    splitStep lib filename st (x, e) =
      { st with
        x_save := x
        size := st.size + Sizer lib e
        temp := st.temp ++ [e]
        result := GoMap.set st.result filename (st.temp ++ [e]) } := by
  unfold splitStep
  simp only []
  have h1 : ¬ (st.size + Sizer lib e ≥ 52428800) := by omega
  have h2 : ¬ ((x : Int) - (st.previos : Int) ≥ 50000) := by rw [hp]; omega
  rw [if_neg h1, if_neg h2, if_pos hc]

/-- The loop over a run of entries that crosses no boundary, from index `n`. -/
theorem splitFold_place (lib : GoLib URL Time) (filename : String)
    (l : List SitemapElement) :
    ∀ (n : Nat) (st : SplitState), st.counts = 0 → st.previos = 0 →
      n + l.length ≤ 50000 → st.size + sumSizer lib l < 52428800 →
      (st.result = [] ∨ st.result = [(filename, st.temp)]) →
      ((l.enumFrom n).foldl (splitStep lib filename) st).counts = 0 ∧
      ((l.enumFrom n).foldl (splitStep lib filename) st).previos = 0 ∧
      ((l.enumFrom n).foldl (splitStep lib filename) st).size = st.size + sumSizer lib l ∧
      ((l.enumFrom n).foldl (splitStep lib filename) st).temp = st.temp ++ l ∧
      (l ≠ [] → ((l.enumFrom n).foldl (splitStep lib filename) st).result =
        [(filename, st.temp ++ l)]) := by
  induction l with
  | nil => intro n st hc hp _ _ _; simp [hc, hp, sumSizer]
  | cons e t ih =>
    intro n st hc hp hn hs hr
    rw [sumSizer_cons] at hs
    have hstep := splitStep_place lib filename st n e hc hp
      (by simp at hn; omega) (by omega)
    have hres : GoMap.set st.result filename (st.temp ++ [e]) =
        [(filename, st.temp ++ [e])] := by
      rcases hr with hr | hr <;> rw [hr] <;> simp [GoMap.set]
    simp only [List.enumFrom_cons, List.foldl_cons]
    rw [hstep, hres]
    obtain ⟨a1, a2, a3, a4, a5⟩ := ih (n + 1)
      { st with
        x_save := n
        size := st.size + Sizer lib e
        temp := st.temp ++ [e]
        result := [(filename, st.temp ++ [e])] }
      hc hp (by simp at hn ⊢; omega) (by simp; omega) (Or.inr rfl)
    refine ⟨a1, a2, ?_, ?_, ?_⟩
    · rw [a3, sumSizer_cons]; simp; omega
    · rw [a4]; simp
    · intro _
      by_cases ht : t = []
      · subst ht; simp
      · rw [a5 ht]; simp

/-- A turn of the loop in which the count rule fires. -/
theorem splitStep_count (lib : GoLib URL Time) (filename : String) (st : SplitState)
    (x : Nat) (e : SitemapElement) (hs : st.size + Sizer lib e < 52428800)
    (hx : st.previos + 50000 ≤ x) :
    splitStep lib filename st (x, e) =
      { st with
        x_save := x
        size := st.size + Sizer lib e
        result := GoMap.set st.result (sprintfSD filename st.counts) st.temp
        temp := []
        previos := x
        counts := st.counts + 1 } := by
  unfold splitStep
  simp only []
  have h1 : ¬ (st.size + Sizer lib e ≥ 52428800) := by omega
  have h2 : (x : Int) - (st.previos : Int) ≥ 50000 := by omega
  rw [if_neg h1, if_pos h2]

theorem ne_append_zero (filename : String) : ¬ (filename = filename ++ "0") := by
  intro h
  have h1 := congrArg String.length h
  rw [String.length_append] at h1
  have h2 : "0".length = 1 := by decide
  omega

/-- A stock of 50000 entries followed by one more, all below the size limit: the
count rule fires at index 50000 while the segment counter is 0. -/
theorem SplitStock_first_count_boundary (lib : GoLib URL Time) (filename : String)
    (first : List SitemapElement) (b : SitemapElement) (hlen : first.length = 50000)
    (hsize : sumSizer lib (first ++ [b]) < 52428800) :
    SplitStock lib filename (first ++ [b]) =
      [(filename, first), (filename ++ "0", first)] := by
  have hne : first ≠ [] := by
    intro h; rw [h] at hlen; simp at hlen
  rw [sumSizer_append, sumSizer_singleton] at hsize
  obtain ⟨a1, a2, a3, a4, a5⟩ := splitFold_place lib filename first 0 SplitState.init
    rfl rfl (by omega) (by simp [SplitState.init]; omega) (Or.inl rfl)
  have a5 := a5 hne
  have b3 : SplitState.init.size = 0 := rfl
  have b4 : SplitState.init.temp = [] := rfl
  rw [b3, Nat.zero_add] at a3
  rw [b4, List.nil_append] at a4 a5
  unfold SplitStock splitLoop
  rw [List.enum, List.enumFrom_append, List.foldl_append]
  simp only [List.enumFrom_cons, List.enumFrom_nil, List.foldl_cons, List.foldl_nil,
    Nat.zero_add, hlen]
  rw [splitStep_count lib filename _ 50000 b (by rw [a3]; exact hsize) (by rw [a2])]
  simp only [a1, a4, a5]
  have h0 : sprintfSD filename 0 = filename ++ "0" := rfl
  rw [h0]
  simp [GoMap.set, ne_append_zero]

/-! ## `SplitStock`: the claims -/

/-- C1: for every base name and every non-empty stock of at most 50000 entries whose
cumulative estimated size is below 52428800, `SplitStock` returns the map with the one
key `base`, whose value is the whole stock in its order. -/
theorem SplitStock_single_segment (lib : GoLib URL Time) (base : String)
    (stock : List SitemapElement) (hne : stock ≠ []) (hlen : stock.length ≤ 50000)
    (hsize : sumSizer lib stock < 52428800) :
    SplitStock lib base stock = [(base, stock)] := by
  obtain ⟨_, _, _, _, a5⟩ := splitFold_place lib base stock 0 SplitState.init
    rfl rfl (by omega) (by simp [SplitState.init]; omega) (Or.inl rfl)
  have a5 := a5 hne
  have b4 : SplitState.init.temp = [] := rfl
  rw [b4, List.nil_append] at a5
  exact a5

/-- Witness of C1: the three entries of the end-to-end scenario make one segment
`sitemap` holding the three entries in their order. -/
theorem SplitStock_single_segment_witness :
    scenarioStock ≠ [] ∧ scenarioStock.length ≤ 50000 ∧
    sumSizer sampleLib scenarioStock < 52428800 ∧
    SplitStock sampleLib "sitemap" scenarioStock = [("sitemap", scenarioStock)] :=
  ⟨by decide, by decide, by decide,
   SplitStock_single_segment sampleLib "sitemap" scenarioStock (by decide) (by decide)
     (by decide)⟩

theorem sumSizer_replicate (lib : GoLib URL Time) (n : Nat) (e : SitemapElement) :
    sumSizer lib (List.replicate n e) = n * Sizer lib e := by
  simp [sumSizer, List.map_replicate, List.sum_replicate]

/-- The result of `SplitStock` on `boundaryStock`: the first 50000 entries are stored
under `sitemap` and again under `sitemap0`, and the entry at index 50000 is stored
nowhere. -/
theorem SplitStock_boundaryStock :
    SplitStock sampleLib "sitemap" boundaryStock =
      [("sitemap", List.replicate 50000 entryA),
       ("sitemap" ++ "0", List.replicate 50000 entryA)] := by
  have hA : Sizer sampleLib entryA = 40 := by decide
  have hB : Sizer sampleLib entryB = 40 := by decide
  have hsize : sumSizer sampleLib (List.replicate 50000 entryA ++ [entryB]) < 52428800 := by
    rw [sumSizer_append, sumSizer_singleton, sumSizer_replicate, hA, hB]
    norm_num
  exact SplitStock_first_count_boundary sampleLib "sitemap" (List.replicate 50000 entryA)
    entryB (List.length_replicate _ _) hsize

/-- C2, at the stock of 50001 entries `boundaryStock`: its last entry `entryB`, at
index 50000 where the count rule fires, is in no segment of `SplitStock`, so the
segments do not give back the stock. -/
theorem SplitStock_boundary_entry_lost :
    entryB ∈ boundaryStock ∧
    ∀ kv ∈ SplitStock sampleLib "sitemap" boundaryStock, entryB ∉ kv.2 := by
  refine ⟨List.mem_append_right _ (List.mem_singleton_self _), ?_⟩
  rw [SplitStock_boundaryStock]
  have hnot : entryB ∉ List.replicate 50000 entryA := by
    intro h
    have hne : entryB ≠ entryA := by decide
    exact hne (List.eq_of_mem_replicate h)
  generalize List.replicate 50000 entryA = first at hnot
  intro kv hkv
  rcases List.mem_cons.1 hkv with rfl | hkv
  · exact hnot
  · rcases List.mem_cons.1 hkv with rfl | hkv
    · exact hnot
    · cases hkv

/-- C3: for every base name and every stock, every segment of `SplitStock` has at most
50000 entries. -/
theorem SplitStock_segment_length_le (lib : GoLib URL Time) (base : String)
    (stock : List SitemapElement) (kv : String × List SitemapElement)
    (hkv : kv ∈ SplitStock lib base stock) : kv.2.length ≤ 50000 :=
  (SplitInv.of_splitLoop lib base stock).seg_len kv hkv

/-- Witness of C3: the segment of the end-to-end scenario. -/
theorem SplitStock_segment_length_le_witness :
    ("sitemap", scenarioStock) ∈ SplitStock sampleLib "sitemap" scenarioStock ∧
    scenarioStock.length ≤ 50000 :=
  ⟨by decide,
   SplitStock_segment_length_le sampleLib "sitemap" scenarioStock ("sitemap", scenarioStock)
     (by decide)⟩

/-- C4: for every base name and every stock, the estimated size of every segment of
`SplitStock`, the sum of `Sizer` over its entries, is below 52428800. -/
theorem SplitStock_segment_size_lt (lib : GoLib URL Time) (base : String)
    (stock : List SitemapElement) (kv : String × List SitemapElement)
    (hkv : kv ∈ SplitStock lib base stock) : sumSizer lib kv.2 < 52428800 :=
  (SplitInv.of_splitLoop lib base stock).seg_size kv hkv

/-- Witness of C4: the segment of the end-to-end scenario. -/
theorem SplitStock_segment_size_lt_witness :
    ("sitemap", scenarioStock) ∈ SplitStock sampleLib "sitemap" scenarioStock ∧
    sumSizer sampleLib scenarioStock < 52428800 :=
  ⟨by decide,
   SplitStock_segment_size_lt sampleLib "sitemap" scenarioStock ("sitemap", scenarioStock)
     (by decide)⟩

/-- C5, at the stock of 50001 entries `boundaryStock`: the count rule fires while the
segment counter is 0 and stores the first segment under the key `sitemap0`. -/
theorem SplitStock_boundary_key_zero :
    GoMap.get? (SplitStock sampleLib "sitemap" boundaryStock) "sitemap0" =
      some (List.replicate 50000 entryA) := by
  rw [SplitStock_boundaryStock]
  generalize List.replicate 50000 entryA = first
  have h1 : ¬ ("sitemap" = "sitemap0") := by decide
  have h2 : "sitemap" ++ "0" = "sitemap0" := by decide
  simp [GoMap.get?, List.find?, h1, h2]

/-! ## `NewSitemapElementAdd` -/

/-- C6: for every session, location, change frequency and timestamp,
`NewSitemapElementAdd` with a priority `p < 0.0` or `p > 1.0` returns the error
`ERRORPRIORITETYRANGE` and leaves `Stock` as it was. -/
theorem NewSitemapElementAdd_priority_out_of_range (lib : GoLib URL Time) (s : Sitemap)
    (loc changefreq : String) (lastmod : Time) (p : Float64)
    (hp : Float64.lt p Float64.zero = true ∨ Float64.lt Float64.one p = true) :
    (NewSitemapElementAdd lib s loc changefreq lastmod p).2 = some ERRORPRIORITETYRANGE ∧
    (NewSitemapElementAdd lib s loc changefreq lastmod p).1.Stock = s.Stock := by
  have h : (Float64.lt p Float64.zero || Float64.lt Float64.one p) = true := by
    rcases hp with hp | hp <;> simp [hp]
  unfold NewSitemapElementAdd
  rw [if_pos h]
  exact ⟨rfl, rfl⟩

/-- Witness of C6: the priority `2.0` on the first location of the scenario. -/
theorem NewSitemapElementAdd_priority_out_of_range_witness :
    (Float64.lt f2_0 Float64.zero = true ∨ Float64.lt Float64.one f2_0 = true) ∧
    (NewSitemapElementAdd sampleLib sampleSession "http://example.com/a" "daily" ()
      f2_0).2 = some ERRORPRIORITETYRANGE ∧
    (NewSitemapElementAdd sampleLib sampleSession "http://example.com/a" "daily" ()
      f2_0).1.Stock = sampleSession.Stock :=
  ⟨Or.inr (by decide),
   NewSitemapElementAdd_priority_out_of_range sampleLib sampleSession
     "http://example.com/a" "daily" () f2_0 (Or.inr (by decide))⟩

theorem Float64.lt_eq_false_of_le (a b : Float64) (h : Float64.le a b = true) :
    Float64.lt b a = false := by
  cases a with
  | nan => simp [Float64.le] at h
  | inf na =>
    cases b with
    | nan => simp [Float64.le] at h
    | inf nb => cases na <;> cases nb <;> simp_all [Float64.le, Float64.lt]
    | fin nb mb eb => simpa [Float64.le, Float64.lt] using h
  | fin na ma ea =>
    cases b with
    | nan => simp [Float64.le] at h
    | inf nb => simpa [Float64.le, Float64.lt] using h
    | fin nb mb eb =>
      simp only [Float64.le, decide_eq_true_eq] at h
      simp only [Float64.lt, decide_eq_false_iff_not, not_lt]
      rw [min_comm]
      exact h

/-- C7: for every priority `p` with `0.0 <= p <= 1.0` and every location whose escaped
form `url.Parse` accepts, `NewSitemapElementAdd` returns no error and the new session
is the old one with one entry added at the end of `Stock`: the given change frequency
and priority, the location as the parsed URL prints it, the converted timestamp. -/
theorem NewSitemapElementAdd_appends (lib : GoLib URL Time) (s : Sitemap)
    (loc changefreq : String) (lastmod : Time) (p : Float64) (u : URL)
    (h0 : Float64.le Float64.zero p = true) (h1 : Float64.le p Float64.one = true)
    (hu : lib.urlParse (escapePass loc) = .ok u) :
    NewSitemapElementAdd lib s loc changefreq lastmod p =
      ({ s with Stock := s.Stock ++
          [{ Loc := lib.urlString u, Changefreq := changefreq,
             Lastmod := converttime lib lastmod, Priority := p }] }, none) := by
  have g0 := Float64.lt_eq_false_of_le _ _ h0
  have g1 := Float64.lt_eq_false_of_le _ _ h1
  unfold NewSitemapElementAdd filters
  simp [g0, g1, hu]

/-- Witness of C7: the second entry of the end-to-end scenario, priority `0.8`. -/
theorem NewSitemapElementAdd_appends_witness :
    Float64.le Float64.zero f0_8 = true ∧ Float64.le f0_8 Float64.one = true ∧
    sampleLib.urlParse (escapePass "http://example.com/b") = .ok "http://example.com/b" ∧
    NewSitemapElementAdd sampleLib sampleSession "http://example.com/b" "daily" () f0_8 =
      ({ sampleSession with Stock := sampleSession.Stock ++
          [{ Loc := sampleLib.urlString "http://example.com/b", Changefreq := "daily",
             Lastmod := converttime sampleLib (), Priority := f0_8 }] }, none) :=
  ⟨by decide, by decide, rfl,
   NewSitemapElementAdd_appends sampleLib sampleSession "http://example.com/b" "daily" ()
     f0_8 "http://example.com/b" (by decide) (by decide) rfl⟩

/-! ## `GenerateXMLSitemap` -/

/-- C8: for every output path, `GenerateXMLSitemap` on a session whose `Stock` is empty
returns the error `ERROREMPTYSTACK`, leaves the files as they were, and leaves `Stock`
and `Splits` unchanged. -/
theorem GenerateXMLSitemap_empty_stock (lib : GoLib URL Time) (s : Sitemap)
    (files : GoMap String String) (path : String) (h : s.Stock = []) :
    (GenerateXMLSitemap lib s files path).outcome = Outcome.error ERROREMPTYSTACK ∧
    (GenerateXMLSitemap lib s files path).files = files ∧
    (GenerateXMLSitemap lib s files path).s.Stock = s.Stock ∧
    (GenerateXMLSitemap lib s files path).s.Splits = s.Splits := by
  have h0 : s.Stock.length = 0 := by rw [h]; rfl
  unfold GenerateXMLSitemap
  rw [if_pos h0]
  exact ⟨rfl, rfl, rfl, rfl⟩

/-- Witness of C8: a session fresh from `NewSitemap`, no file on disk. -/
theorem GenerateXMLSitemap_empty_stock_witness :
    sampleSession.Stock = [] ∧
    (GenerateXMLSitemap sampleLib sampleSession [] "out/sitemap.xml").outcome =
      Outcome.error ERROREMPTYSTACK ∧
    (GenerateXMLSitemap sampleLib sampleSession [] "out/sitemap.xml").files = [] ∧
    (GenerateXMLSitemap sampleLib sampleSession [] "out/sitemap.xml").s.Stock =
      sampleSession.Stock ∧
    (GenerateXMLSitemap sampleLib sampleSession [] "out/sitemap.xml").s.Splits =
      sampleSession.Splits :=
  ⟨by decide,
   GenerateXMLSitemap_empty_stock sampleLib sampleSession [] "out/sitemap.xml" (by decide)⟩

/-! ## The escaping pass of `filters` -/

theorem foldl_append_singleton (m acc : List Char) :
    m.foldl (fun r sym => r ++ [sym]) acc = acc ++ m := by
  induction m generalizing acc with
  | nil => simp
  | cons c t ih => simp [ih]

theorem filterStep_eq (acc : List Char) (x : Char) :
    filterStep acc x = acc ++ (escapeCharSpec x).toList := by
  unfold filterStep escapeCharSpec
  by_cases h1 : x = '&'
  · subst h1; rw [show mask.get? '&' = some "&amp;" from by decide]
    simp [foldl_append_singleton]
  by_cases h2 : x = Char.ofNat 39
  · subst h2; rw [show mask.get? (Char.ofNat 39) = some "&apos;" from by decide]
    simp [foldl_append_singleton]
  by_cases h3 : x = Char.ofNat 34
  · subst h3; rw [show mask.get? (Char.ofNat 34) = some "&quot;" from by decide]
    simp [foldl_append_singleton]
  by_cases h4 : x = '>'
  · subst h4; rw [show mask.get? '>' = some "&gt;" from by decide]
    simp [foldl_append_singleton]
  by_cases h5 : x = '<'
  · subst h5; rw [show mask.get? '<' = some "&lt;" from by decide]
    simp [foldl_append_singleton]
  have hnone : mask.get? x = none := by
    simp [mask, GoMap.get?, GoMap.set, List.find?, Ne.symm h1, Ne.symm h2, Ne.symm h3,
      Ne.symm h4, Ne.symm h5]
  rw [hnone]
  simp [h1, h2, h3, h4, h5]

theorem foldl_filterStep (l acc : List Char) :
    l.foldl filterStep acc = acc ++ l.flatMap (fun c => (escapeCharSpec c).toList) := by
  induction l generalizing acc with
  | nil => simp
  | cons c t ih => simp [ih, filterStep_eq]

/-- C9: for every location string, the escaping pass of `filters` gives the
concatenation, over the characters from left to right, of the named entity for each of
the five reserved characters and of the character itself otherwise; `a&b<c` becomes
`a&amp;b&lt;c`. -/
theorem escapePass_eq_escapeSpec :
    (∀ s : String, escapePass s = escapeSpec s) ∧ escapePass "a&b<c" = "a&amp;b&lt;c" := by
  refine ⟨?_, by decide⟩
  intro s
  unfold escapePass escapeSpec
  rw [foldl_filterStep]
  simp

/-! ## The text of the document -/

set_option maxRecDepth 20000 in
/-- C10, at the session `ampSession`, whose one entry was added with the location
`http://example.com/?a=1&b=2` and is stored with `&amp;`: the one file written by
`GenerateXMLSitemap` has `&amp;amp;` in its `loc` element. -/
theorem GenerateXMLSitemap_escapes_loc_again :
    ampSession.Stock = [sampleEntry "http://example.com/?a=1&amp;b=2" f0_5] ∧
    (GenerateXMLSitemap sampleLib ampSession [] "out/sitemap.xml").files =
      [("out/sitemap.xml",
        xmlHeader ++ "<urlset xmlns=" ++ dquote ++ SITEMAPLSCHEMA ++ dquote ++ ">" ++
        "<url><loc>http://example.com/?a=1&amp;amp;b=2</loc>" ++
        "<lastmod>2017-01-01</lastmod><changefreq>daily</changefreq>" ++
        "<priority>0.5</priority></url></urlset>")] := by
  decide

/-! ## `NewSitemap` -/

/-- C11, at every writer `w` of the caller and every debug flag: the logger of
`NewSitemap(w, debug)` has the standard output as its sink, not `w`, and the logger of
`NewSitemap(nil, debug)` has no sink at all. -/
theorem NewSitemap_logger_sink (w : Writer) (debug : Bool) :
    (NewSitemap (some w) debug).Logger.out = some Writer.stdout ∧
    (NewSitemap none debug).Logger.out = none := by
  constructor <;> simp [NewSitemap, Logger.New]

/-! ## `SplitFilePath` -/

/-- C12, at the path `out/sitemap`, which has no extension: `SplitFilePath` gives the
file name `s`, the first character only, and the generation of the three-entry scenario
writes the one file `out/s`; `out/sitemap.xml` is split as expected. -/
theorem SplitFilePath_without_extension :
    SplitFilePath "out/sitemap.xml" = some ("out/", "sitemap", ".xml") ∧
    SplitFilePath "out/sitemap" = some ("out/", "s", "") ∧
    GoMap.keys (GenerateXMLSitemap sampleLib scenarioSession [] "out/sitemap").files =
      ["out/s"] := by
  decide

theorem splitScan_ne_nil (sep : List Char) (s : List Char) :
    ∀ (skip : Nat) (cur : List Char), splitScan sep s skip cur ≠ [] := by
  induction s with
  | nil => intro skip cur; simp [splitScan]
  | cons c t ih =>
    intro skip cur
    cases skip with
    | zero =>
      simp only [splitScan]
      split_ifs
      · simp
      · exact ih 0 _
    | succ k => simpa [splitScan] using ih k cur

theorem string_mk_eq_empty (l : List Char) : String.mk l = "" ↔ l = [] := by
  constructor
  · intro h
    have := congrArg String.data h
    simpa using this
  · rintro rfl; rfl

theorem stringsSplit_head_isSome (f ext : String) (hf : f ≠ "") :
    (stringsSplit f ext)[0]? ≠ none := by
  unfold stringsSplit
  split_ifs with h
  · have hl : f.toList ≠ [] := by
      intro hl
      apply hf
      have : f = String.mk f.toList := rfl
      rw [this, hl]
    cases hfl : f.toList with
    | nil => exact absurd hfl hl
    | cons c t => simp
  · cases hs : splitScan ext.toList f.toList 0 [] with
    | nil => exact absurd hs (splitScan_ne_nil _ _ _ _)
    | cons a t => simp

/-- C19: for every path, the index `[0]` of `SplitFilePath` is out of range exactly
when the final element of the path is empty, that is for the empty path and for the
paths that end in a separator; for every other path the function returns. -/
theorem SplitFilePath_eq_none_iff (path : String) :
    (SplitFilePath path = none ↔ (filepathSplit path).2 = "") ∧
    ((filepathSplit path).2 = "" ↔
      (path.toList = [] ∨ path.toList.getLast? = some '/')) := by
  constructor
  · unfold SplitFilePath
    simp only []
    by_cases hf : (filepathSplit path).2 = ""
    · rw [hf]
      simp [filepathExt, extScan, stringsSplit]
    · have := stringsSplit_head_isSome (filepathSplit path).2
        (filepathExt (filepathSplit path).2) hf
      cases hh : (stringsSplit (filepathSplit path).2
          (filepathExt (filepathSplit path).2))[0]? with
      | none => exact absurd hh this
      | some a => simp [hf]
  · unfold filepathSplit
    simp only [string_mk_eq_empty, List.reverse_eq_nil_iff]
    have h1 : path.toList = [] ↔ path.toList.reverse = [] := by simp
    rw [← List.head?_reverse, h1]
    generalize path.toList.reverse = r
    cases r with
    | nil => simp
    | cons c t =>
      by_cases hc : c = '/'
      · simp [List.takeWhile, hc]
      · have hb : (c != '/') = true := by simpa using hc
        simp [List.takeWhile, hc, hb]

/-! ## The escaping pass: idempotence and inverse -/

theorem escapePass_toList (s : String) :
    (escapePass s).toList = s.toList.flatMap (fun c => (escapeCharSpec c).toList) := by
  unfold escapePass
  rw [foldl_filterStep]
  simp

theorem escapeCharSpec_of_not_reserved (c : Char) (h : isReserved c = false) :
    (escapeCharSpec c).toList = [c] := by
  simp only [isReserved, Bool.or_eq_false_iff, decide_eq_false_iff_not] at h
  obtain ⟨⟨⟨⟨h1, h2⟩, h3⟩, h4⟩, h5⟩ := h
  simp [escapeCharSpec, h1, h2, h3, h4, h5, String.singleton]

theorem escapeCharSpec_of_reserved (c : Char) (h : isReserved c = true) :
    ∃ w, (escapeCharSpec c).toList = '&' :: w ∧ 3 ≤ w.length := by
  simp only [isReserved, Bool.or_eq_true, decide_eq_true_eq] at h
  rcases h with (((h | h) | h) | h) | h <;> subst h
  · exact ⟨"amp;".toList, by decide, by decide⟩
  · exact ⟨"apos;".toList, by decide, by decide⟩
  · exact ⟨"quot;".toList, by decide, by decide⟩
  · exact ⟨"gt;".toList, by decide, by decide⟩
  · exact ⟨"lt;".toList, by decide, by decide⟩

theorem flatMap_escape_of_not_reserved (l : List Char)
    (h : ∀ c ∈ l, isReserved c = false) :
    l.flatMap (fun c => (escapeCharSpec c).toList) = l := by
  induction l with
  | nil => rfl
  | cons c t ih =>
    rw [List.flatMap_cons, escapeCharSpec_of_not_reserved c (h c (List.mem_cons_self _ _)),
      ih (fun d hd => h d (List.mem_cons_of_mem _ hd))]
    rfl

theorem length_le_flatMap_escape (l : List Char) :
    l.length ≤ (l.flatMap (fun c => (escapeCharSpec c).toList)).length := by
  induction l with
  | nil => simp
  | cons c t ih =>
    rw [List.flatMap_cons, List.length_append, List.length_cons]
    cases hc : isReserved c with
    | false => rw [escapeCharSpec_of_not_reserved c hc, List.length_singleton]; omega
    | true =>
      obtain ⟨w, hw, hlen⟩ := escapeCharSpec_of_reserved c hc
      rw [hw, List.length_cons]; omega

theorem length_lt_flatMap_escape (l : List Char) (c : Char) (hc : c ∈ l)
    (hr : isReserved c = true) :
    l.length < (l.flatMap (fun c => (escapeCharSpec c).toList)).length := by
  induction l with
  | nil => cases hc
  | cons d t ih =>
    rw [List.flatMap_cons, List.length_append, List.length_cons]
    have hle := length_le_flatMap_escape t
    rcases List.mem_cons.1 hc with rfl | hc
    · obtain ⟨w, hw, hlen⟩ := escapeCharSpec_of_reserved c hr
      rw [hw, List.length_cons]; omega
    · have := ih hc
      have h1 : 1 ≤ (escapeCharSpec d).toList.length := by
        cases hd : isReserved d with
        | false => rw [escapeCharSpec_of_not_reserved d hd, List.length_singleton]
        | true =>
          obtain ⟨w, hw, _⟩ := escapeCharSpec_of_reserved d hd
          rw [hw, List.length_cons]; omega
      omega

theorem amp_mem_flatMap_escape (l : List Char) (c : Char) (hc : c ∈ l)
    (hr : isReserved c = true) :
    '&' ∈ l.flatMap (fun c => (escapeCharSpec c).toList) := by
  obtain ⟨w, hw, _⟩ := escapeCharSpec_of_reserved c hr
  exact List.mem_flatMap.2 ⟨c, hc, by rw [hw]; exact List.mem_cons_self _ _⟩

/-- C14 as stated fails at `a&b`: a second pass escapes the `&` of `&amp;` again. -/
theorem escapePass_not_idempotent :
    escapePass (escapePass "a&b") ≠ escapePass "a&b" := by
  decide

/-- C14 as amended: for every location string, escaping the escaped string gives the
same string exactly when the string has none of the five reserved characters; the
escaping then leaves the string as it is. -/
theorem escapePass_idempotent_iff (s : String) :
    (escapePass (escapePass s) = escapePass s ↔ ∀ c ∈ s.toList, isReserved c = false) ∧
    ((∀ c ∈ s.toList, isReserved c = false) → escapePass s = s) := by
  have hfix : (∀ c ∈ s.toList, isReserved c = false) → escapePass s = s := by
    intro h
    have h1 := escapePass_toList s
    rw [flatMap_escape_of_not_reserved _ h] at h1
    have h2 : escapePass s = String.mk (escapePass s).toList := rfl
    rw [h2, h1]
    cases s
    rfl
  refine ⟨⟨?_, ?_⟩, hfix⟩
  · intro h c hc
    cases hr : isReserved c with
    | false => rfl
    | true =>
      exfalso
      have hamp := amp_mem_flatMap_escape s.toList c hc hr
      rw [← escapePass_toList] at hamp
      have hlt := length_lt_flatMap_escape (escapePass s).toList '&' hamp (by decide)
      rw [← escapePass_toList, h] at hlt
      exact lt_irrefl _ hlt
  · intro h
    rw [hfix h, hfix h]

theorem unescapeScan_escape (l : List Char) :
    unescapeScan (l.flatMap (fun c => (escapeCharSpec c).toList)) 0 = l := by
  induction l with
  | nil => rfl
  | cons c t ih =>
    rw [List.flatMap_cons]
    by_cases h1 : c = '&'
    · subst h1
      rw [show (escapeCharSpec '&').toList = ['&', 'a', 'm', 'p', ';'] from by decide]
      simpa [unescapeScan, List.isPrefixOf] using ih
    by_cases h2 : c = Char.ofNat 39
    · subst h2
      rw [show (escapeCharSpec (Char.ofNat 39)).toList = ['&', 'a', 'p', 'o', 's', ';']
        from by decide]
      simpa [unescapeScan, List.isPrefixOf] using ih
    by_cases h3 : c = Char.ofNat 34
    · subst h3
      rw [show (escapeCharSpec (Char.ofNat 34)).toList = ['&', 'q', 'u', 'o', 't', ';']
        from by decide]
      simpa [unescapeScan, List.isPrefixOf] using ih
    by_cases h4 : c = '>'
    · subst h4
      rw [show (escapeCharSpec '>').toList = ['&', 'g', 't', ';'] from by decide]
      simpa [unescapeScan, List.isPrefixOf] using ih
    by_cases h5 : c = '<'
    · subst h5
      rw [show (escapeCharSpec '<').toList = ['&', 'l', 't', ';'] from by decide]
      simpa [unescapeScan, List.isPrefixOf] using ih
    have hr : isReserved c = false := by simp [isReserved, h1, h2, h3, h4, h5]
    rw [escapeCharSpec_of_not_reserved c hr]
    simpa [unescapeScan, h1] using ih

/-- On the valid UTF-8 strings the escaping pass has an inverse,
`unescape (escapePass s) = s`, so it is injective there. -/
theorem unescape_escapePass :
    (∀ s : String, unescape (escapePass s) = s) ∧ Function.Injective escapePass := by
  have h : ∀ s : String, unescape (escapePass s) = s := by
    intro s
    unfold unescape
    rw [escapePass_toList, unescapeScan_escape]
    cases s
    rfl
  exact ⟨h, Function.LeftInverse.injective h⟩

/-! ## `SplitStock`: the state before each turn -/

theorem splitLoop_append (lib : GoLib URL Time) (base : String)
    (l₁ l₂ : List SitemapElement) :
    splitLoop lib base (l₁ ++ l₂) =
      (l₂.enumFrom l₁.length).foldl (splitStep lib base) (splitLoop lib base l₁) := by
  unfold splitLoop
  rw [List.enum, List.enumFrom_append, List.foldl_append]
  simp

theorem splitLoop_snoc (lib : GoLib URL Time) (base : String)
    (l : List SitemapElement) (e : SitemapElement) :
    splitLoop lib base (l ++ [e]) = splitStep lib base (splitLoop lib base l) (l.length, e) := by
  rw [splitLoop_append]
  rfl

theorem stateBefore_append_left (lib : GoLib URL Time) (base : String)
    (l r : List SitemapElement) (t : Nat) (ht : t ≤ l.length) :
    stateBefore lib base (l ++ r) t = stateBefore lib base l t := by
  unfold stateBefore
  rw [List.take_append_of_le_length ht]

theorem stateBefore_length (lib : GoLib URL Time) (base : String)
    (l r : List SitemapElement) :
    stateBefore lib base (l ++ r) l.length = splitLoop lib base l := by
  unfold stateBefore
  rw [List.take_left']
  rfl

theorem crossesBoundary_append_left (lib : GoLib URL Time) (base : String)
    (l r : List SitemapElement) (t : Nat) (ht : t < l.length) :
    crossesBoundary lib base (l ++ r) t = crossesBoundary lib base l t := by
  unfold crossesBoundary sizeRuleFires countRuleFires
  rw [List.getElem?_append_left ht, stateBefore_append_left lib base l r t (le_of_lt ht)]

theorem crossesBoundary_at_length (lib : GoLib URL Time) (base : String)
    (l r : List SitemapElement) (e : SitemapElement) :
    crossesBoundary lib base (l ++ e :: r) l.length =
      (decide ((splitLoop lib base l).size + Sizer lib e ≥ 52428800) ||
        (!decide ((splitLoop lib base l).size + Sizer lib e ≥ 52428800) &&
          decide ((l.length : Int) - ((splitLoop lib base l).previos : Int) ≥ 50000))) := by
  have h : (l ++ e :: r)[l.length]? = some e := by
    rw [List.getElem?_append_right (le_refl _)]
    simp
  unfold crossesBoundary sizeRuleFires countRuleFires
  rw [stateBefore_length, h]

/-! ## `SplitStock`: every segment is a slice -/

theorem sliceInv_splitLoop (lib : GoLib URL Time) (base : String)
    (l : List SitemapElement) : SliceInv lib base l (splitLoop lib base l) := by
  induction l using List.reverseRecOn with
  | nil =>
    refine ⟨⟨0, le_refl _, rfl, fun t _ ht => absurd ht (Nat.not_lt_zero _)⟩, ?_⟩
    intro kv hkv
    cases hkv
  | append_singleton l e ih =>
    obtain ⟨⟨k, hk, htemp, hkb⟩, hseg⟩ := ih
    have hcb : ∀ t, t < l.length →
        crossesBoundary lib base (l ++ [e]) t = crossesBoundary lib base l t :=
      fun t ht => crossesBoundary_append_left lib base l [e] t ht
    have hnew := crossesBoundary_at_length lib base l [] e
    have hlen : (l ++ [e]).length = l.length + 1 := by simp
    -- the segments stored before are slices of the longer list as well
    have hold : ∀ kv ∈ (splitLoop lib base l).result, ∃ i j, i ≤ j ∧
        j ≤ (l ++ [e]).length ∧ kv.2 = ((l ++ [e]).take j).drop i ∧
        ∀ t, i ≤ t → t < j → crossesBoundary lib base (l ++ [e]) t = false := by
      intro kv hkv
      obtain ⟨i, j, hij, hj, hkv2, hb⟩ := hseg kv hkv
      refine ⟨i, j, hij, by omega, ?_, ?_⟩
      · rw [List.take_append_of_le_length hj]; exact hkv2
      · intro t h1 h2
        rw [hcb t (by omega)]
        exact hb t h1 h2
    -- storing the buffer stores a slice
    have hstore : ∀ key, ∀ kv ∈ GoMap.set (splitLoop lib base l).result key
        (splitLoop lib base l).temp, ∃ i j, i ≤ j ∧
        j ≤ (l ++ [e]).length ∧ kv.2 = ((l ++ [e]).take j).drop i ∧
        ∀ t, i ≤ t → t < j → crossesBoundary lib base (l ++ [e]) t = false := by
      intro key kv hkv
      rcases GoMap.mem_set _ _ _ _ hkv with rfl | hkv
      · refine ⟨k, l.length, hk, by omega, ?_, ?_⟩
        · rw [List.take_left']
          · exact htemp
          · rfl
        · intro t h1 h2
          rw [hcb t h2]
          exact hkb t h1 h2
      · exact hold kv hkv
    -- appending to the buffer keeps it a tail, when no boundary is crossed
    have hplace : crossesBoundary lib base (l ++ [e]) l.length = false →
        ∀ key, ∀ kv ∈ GoMap.set (splitLoop lib base l).result key
        ((splitLoop lib base l).temp ++ [e]), ∃ i j, i ≤ j ∧
        j ≤ (l ++ [e]).length ∧ kv.2 = ((l ++ [e]).take j).drop i ∧
        ∀ t, i ≤ t → t < j → crossesBoundary lib base (l ++ [e]) t = false := by
      intro hfalse key kv hkv
      rcases GoMap.mem_set _ _ _ _ hkv with rfl | hkv
      · refine ⟨k, l.length + 1, by omega, by omega, ?_, ?_⟩
        · have h1 : List.take (l.length + 1) (l ++ [e]) = l ++ [e] :=
            List.take_of_length_le (by omega)
          rw [h1, List.drop_append_of_le_length hk, htemp]
        · intro t h1 h2
          by_cases ht : t < l.length
          · rw [hcb t ht]; exact hkb t h1 ht
          · have : t = l.length := by omega
            rw [this]; exact hfalse
      · exact hold kv hkv
    have htail : crossesBoundary lib base (l ++ [e]) l.length = false →
        ∃ k', k' ≤ (l ++ [e]).length ∧
        (splitLoop lib base l).temp ++ [e] = (l ++ [e]).drop k' ∧
        ∀ t, k' ≤ t → t < (l ++ [e]).length →
          crossesBoundary lib base (l ++ [e]) t = false := by
      intro hfalse
      refine ⟨k, by omega, ?_, ?_⟩
      · rw [List.drop_append_of_le_length hk, htemp]
      · intro t h1 h2
        by_cases ht : t < l.length
        · rw [hcb t ht]; exact hkb t h1 ht
        · have : t = l.length := by omega
          rw [this]; exact hfalse
    have hempty : ∃ k', k' ≤ (l ++ [e]).length ∧
        ([] : List SitemapElement) = (l ++ [e]).drop k' ∧
        ∀ t, k' ≤ t → t < (l ++ [e]).length →
          crossesBoundary lib base (l ++ [e]) t = false :=
      ⟨(l ++ [e]).length, le_refl _, by simp, fun t h1 h2 => absurd h2 (by omega)⟩
    rw [splitLoop_snoc]
    unfold splitStep
    simp only []
    split_ifs with hs hc h0
    · exact ⟨hempty, hstore _⟩
    · exact ⟨hempty, hstore _⟩
    · have hfalse : crossesBoundary lib base (l ++ [e]) l.length = false := by
        rw [hnew]; simp [hs, hc]
      exact ⟨htail hfalse, hplace hfalse _⟩
    · have hfalse : crossesBoundary lib base (l ++ [e]) l.length = false := by
        rw [hnew]; simp [hs, hc]
      exact ⟨htail hfalse, hplace hfalse _⟩

/-- C16: for every base name and every stock, each segment of `SplitStock` is a
contiguous slice of the stock, `stock[i..j)` for some `i <= j`, in the order of the
stock. -/
theorem SplitStock_segment_is_slice (lib : GoLib URL Time) (base : String)
    (stock : List SitemapElement) (kv : String × List SitemapElement)
    (hkv : kv ∈ SplitStock lib base stock) :
    ∃ i j, i ≤ j ∧ j ≤ stock.length ∧ kv.2 = (stock.take j).drop i := by
  obtain ⟨i, j, hij, hj, h, _⟩ := (sliceInv_splitLoop lib base stock).seg_slice kv hkv
  exact ⟨i, j, hij, hj, h⟩

/-- Witness of C16: the segment of the end-to-end scenario is `stock[0..3)`. -/
theorem SplitStock_segment_is_slice_witness :
    ("sitemap", scenarioStock) ∈ SplitStock sampleLib "sitemap" scenarioStock ∧
    ∃ i j, i ≤ j ∧ j ≤ scenarioStock.length ∧
      scenarioStock = (scenarioStock.take j).drop i :=
  ⟨by decide,
   SplitStock_segment_is_slice sampleLib "sitemap" scenarioStock ("sitemap", scenarioStock)
     (by decide)⟩

/-! ## `SplitStock`: the first count boundary, seen turn by turn -/

theorem splitLoop_of_place (lib : GoLib URL Time) (base : String)
    (l : List SitemapElement) (hlen : l.length ≤ 50000)
    (hsize : sumSizer lib l < 52428800) :
    (splitLoop lib base l).counts = 0 ∧ (splitLoop lib base l).previos = 0 ∧
    (splitLoop lib base l).size = sumSizer lib l ∧ (splitLoop lib base l).temp = l ∧
    (l ≠ [] → (splitLoop lib base l).result = [(base, l)]) := by
  obtain ⟨a1, a2, a3, a4, a5⟩ := splitFold_place lib base l 0 SplitState.init
    rfl rfl (by omega) (by simp [SplitState.init]; omega) (Or.inl rfl)
  have b3 : SplitState.init.size = 0 := rfl
  have b4 : SplitState.init.temp = [] := rfl
  rw [b3, Nat.zero_add] at a3
  rw [b4, List.nil_append] at a4 a5
  exact ⟨a1, a2, a3, a4, a5⟩

theorem countRuleFires_first (lib : GoLib URL Time) (base : String)
    (first r : List SitemapElement) (b : SitemapElement) (hlen : first.length = 50000)
    (hsize : sumSizer lib (first ++ [b]) < 52428800) :
    countRuleFires lib base (first ++ b :: r) 50000 = true := by
  rw [sumSizer_append, sumSizer_singleton] at hsize
  obtain ⟨_, a2, a3, _, _⟩ := splitLoop_of_place lib base first (by omega) (by omega)
  have h : (first ++ b :: r)[50000]? = some b := by
    rw [List.getElem?_append_right (by omega), hlen]
    simp
  have hst : stateBefore lib base (first ++ b :: r) 50000 = splitLoop lib base first := by
    rw [← hlen]
    exact stateBefore_length lib base first (b :: r)
  unfold countRuleFires
  rw [h]
  simp only [hst, a2, a3]
  have h1 : ¬ (sumSizer lib first + Sizer lib b ≥ 52428800) := by omega
  simp [h1]

theorem sumSizer_boundaryStock :
    sumSizer sampleLib (List.replicate 50000 entryA ++ [entryB]) < 52428800 := by
  have hA : Sizer sampleLib entryA = 40 := by decide
  have hB : Sizer sampleLib entryB = 40 := by decide
  rw [sumSizer_append, sumSizer_singleton, sumSizer_replicate, hA, hB]
  norm_num

theorem crossesBoundary_boundaryStock :
    crossesBoundary sampleLib "sitemap" boundaryStock 50000 = true := by
  have h := countRuleFires_first sampleLib "sitemap" (List.replicate 50000 entryA) []
    entryB (List.length_replicate _ _) sumSizer_boundaryStock
  unfold crossesBoundary
  rw [show boundaryStock = List.replicate 50000 entryA ++ [entryB] from rfl, h]
  exact Bool.or_true _

theorem nodup_index_unique (l : List SitemapElement) (h : l.Nodup) (a : SitemapElement)
    (i j : Nat) (hi : l[i]? = some a) (hj : l[j]? = some a) : i = j := by
  obtain ⟨hi', _⟩ := List.getElem?_eq_some.1 hi
  obtain ⟨hj', _⟩ := List.getElem?_eq_some.1 hj
  by_contra hne
  rcases Nat.lt_or_gt_of_ne hne with hlt | hlt
  · exact List.nodup_iff_getElem?_ne_getElem?.1 h i j hlt hj' (hi.trans hj.symm)
  · exact List.nodup_iff_getElem?_ne_getElem?.1 h j i hlt hi' (hj.trans hi.symm)

/-- C15: for every base name, every stock and every index `x` at which a boundary is
crossed, every segment of `SplitStock` is a slice `stock[i..j)` that leaves the position
`x` out; so, the entries of the stock being distinct (as the pointers of the Go slice
are), the entry at position `x` is in no segment. -/
theorem SplitStock_boundary_entry_not_placed (lib : GoLib URL Time) (base : String)
    (stock : List SitemapElement) (x : Nat) (kv : String × List SitemapElement)
    (hx : crossesBoundary lib base stock x = true)
    (hkv : kv ∈ SplitStock lib base stock) :
    (∃ i j, i ≤ j ∧ j ≤ stock.length ∧ kv.2 = (stock.take j).drop i ∧
      ¬ (i ≤ x ∧ x < j)) ∧
    (stock.Nodup → ∀ e, stock[x]? = some e → e ∉ kv.2) := by
  obtain ⟨i, j, hij, hj, h, hb⟩ := (sliceInv_splitLoop lib base stock).seg_slice kv hkv
  have hout : ¬ (i ≤ x ∧ x < j) := by
    rintro ⟨h1, h2⟩
    rw [hb x h1 h2] at hx
    cases hx
  refine ⟨⟨i, j, hij, hj, h, hout⟩, ?_⟩
  intro hnd e he hmem
  rw [h] at hmem
  obtain ⟨n, hn⟩ := List.mem_iff_getElem?.1 hmem
  rw [List.getElem?_drop, List.getElem?_take] at hn
  split_ifs at hn with hlt
  have := nodup_index_unique stock hnd e (i + n) x hn he
  exact hout ⟨by omega, by omega⟩

/-- Witness of C15: in `boundaryStock` the count rule fires at index 50000, and the
segment `sitemap` is `stock[0..50000)`. -/
theorem SplitStock_boundary_entry_not_placed_witness :
    crossesBoundary sampleLib "sitemap" boundaryStock 50000 = true ∧
    ("sitemap", List.replicate 50000 entryA) ∈
      SplitStock sampleLib "sitemap" boundaryStock ∧
    (∃ i j, i ≤ j ∧ j ≤ boundaryStock.length ∧
      List.replicate 50000 entryA = (boundaryStock.take j).drop i ∧
      ¬ (i ≤ 50000 ∧ 50000 < j)) ∧
    (boundaryStock.Nodup → ∀ e, boundaryStock[50000]? = some e →
      e ∉ List.replicate 50000 entryA) :=
  have hkv : ("sitemap", List.replicate 50000 entryA) ∈
      SplitStock sampleLib "sitemap" boundaryStock := by
    rw [SplitStock_boundaryStock]
    exact List.mem_cons_self _ _
  ⟨crossesBoundary_boundaryStock, hkv,
   SplitStock_boundary_entry_not_placed sampleLib "sitemap" boundaryStock 50000
     ("sitemap", List.replicate 50000 entryA) crossesBoundary_boundaryStock hkv⟩

/-! ## `SplitStock`: exactly 50000 entries -/

theorem SplitStock_of_place (lib : GoLib URL Time) (base : String)
    (l : List SitemapElement) (hne : l ≠ []) (hlen : l.length ≤ 50000)
    (hsize : sumSizer lib l < 52428800) :
    SplitStock lib base l = [(base, l)] := by
  unfold SplitStock
  exact (splitLoop_of_place lib base l hlen hsize).2.2.2.2 hne

theorem fullStock_length : fullStock.length = 50000 := List.length_replicate _ _

theorem fullStock_ne_nil : fullStock ≠ [] := by
  intro h
  have hlen := fullStock_length
  rw [h] at hlen; simp at hlen

theorem sumSizer_fullStock : sumSizer sampleLib fullStock < 52428800 := by
  have hA : Sizer sampleLib entryA = 40 := by decide
  unfold fullStock
  rw [sumSizer_replicate, hA]
  norm_num

theorem SplitStock_fullStock :
    SplitStock sampleLib "sitemap" fullStock = [("sitemap", fullStock)] :=
  SplitStock_of_place sampleLib "sitemap" fullStock fullStock_ne_nil
    (le_of_eq fullStock_length) sumSizer_fullStock

/-- C13 as stated fails at `fullStock`, 50000 entries of 40 bytes each: `SplitStock`
returns one segment, and no key `sitemap1`. -/
theorem SplitStock_fullStock_one_segment :
    ¬ (2 ≤ (SplitStock sampleLib "sitemap" fullStock).length) ∧
    GoMap.get? (SplitStock sampleLib "sitemap" fullStock) "sitemap1" = none := by
  rw [SplitStock_fullStock]
  generalize fullStock = l
  have h1 : ¬ ("sitemap" = "sitemap1") := by decide
  exact ⟨by simp, by simp [GoMap.get?, List.find?, h1]⟩

/-- C13 as amended: for every base name and every stock of exactly 50000 entries whose
cumulative estimated size stays below 52428800, `SplitStock` returns exactly one
segment, named `base`, holding the whole stock. -/
theorem SplitStock_exactly_50000 (lib : GoLib URL Time) (base : String)
    (stock : List SitemapElement) (hlen : stock.length = 50000)
    (hsize : sumSizer lib stock < 52428800) :
    SplitStock lib base stock = [(base, stock)] := by
  have hne : stock ≠ [] := by
    intro h; rw [h] at hlen; simp at hlen
  exact SplitStock_of_place lib base stock hne (le_of_eq hlen) hsize

/-- Witness of the amended C13: `fullStock`. -/
theorem SplitStock_exactly_50000_witness :
    fullStock.length = 50000 ∧ sumSizer sampleLib fullStock < 52428800 ∧
    SplitStock sampleLib "sitemap" fullStock = [("sitemap", fullStock)] :=
  ⟨fullStock_length, sumSizer_fullStock,
   SplitStock_exactly_50000 sampleLib "sitemap" fullStock fullStock_length
     sumSizer_fullStock⟩

/-! ## `SplitStock`: the buffer when the count rule fires -/

theorem countInv_step (lib : GoLib URL Time) (base : String) (n : Nat)
    (st : SplitState) (e : SitemapElement) (h : CountInv n st) :
    CountInv (n + 1) (splitStep lib base st (n, e)) := by
  obtain ⟨hz, hp⟩ := h
  have hprev : st.previos ≤ n := by
    rcases Nat.eq_zero_or_pos st.counts with h0 | h0
    · have := (hz h0).1; omega
    · have := (hp h0).1; omega
  unfold splitStep
  simp only []
  split_ifs with hs hc h0
  · exact ⟨fun h => by simp at h, fun _ => ⟨by simp; omega, by simp⟩⟩
  · exact ⟨fun h => by simp at h, fun _ => ⟨by simp, by simp⟩⟩
  · obtain ⟨z1, z2⟩ := hz h0
    exact ⟨fun _ => ⟨z1, by simp; omega⟩, fun h => by simp at h; omega⟩
  · have hpos : 0 < st.counts := Nat.pos_of_ne_zero h0
    obtain ⟨p1, p2⟩ := hp hpos
    refine ⟨fun h => absurd h h0, fun _ => ⟨by simp; omega, ?_⟩⟩
    simp only [List.length_append, List.length_singleton]
    omega

theorem countInv_fold (lib : GoLib URL Time) (base : String)
    (l : List SitemapElement) :
    ∀ (n : Nat) (st : SplitState), CountInv n st →
      CountInv (n + l.length) ((l.enumFrom n).foldl (splitStep lib base) st) := by
  induction l with
  | nil => intro n st h; simpa using h
  | cons e t ih =>
    intro n st h
    have := ih (n + 1) _ (countInv_step lib base n st e h)
    simpa [List.enumFrom_cons, List.foldl_cons, Nat.add_assoc, Nat.add_comm 1] using this

theorem countInv_splitLoop (lib : GoLib URL Time) (base : String)
    (stock : List SitemapElement) :
    CountInv stock.length (splitLoop lib base stock) := by
  have h0 : CountInv 0 SplitState.init :=
    ⟨fun _ => ⟨rfl, rfl⟩, fun h => absurd h (by simp [SplitState.init])⟩
  have := countInv_fold lib base stock 0 SplitState.init h0
  simpa [Gositemap.splitLoop, List.enum] using this

theorem stateBefore_succ (lib : GoLib URL Time) (base : String)
    (stock : List SitemapElement) (x : Nat) (e : SitemapElement)
    (he : stock[x]? = some e) :
    stateBefore lib base stock (x + 1) =
      splitStep lib base (stateBefore lib base stock x) (x, e) := by
  obtain ⟨hx, _⟩ := List.getElem?_eq_some.1 he
  have hlen : (stock.take x).length = x := by
    rw [List.length_take]; omega
  unfold stateBefore
  rw [List.take_succ, he, Option.toList, splitLoop_snoc, hlen]

/-- C17 as amended: whenever the count rule fires at an index `x`, the buffer it stores
(under the name made of `base` and the segment counter) holds at most 50000 entries, and
exactly 50000 when the segment counter is still 0, that is at the first boundary of the
run. -/
theorem countRule_buffer_length (lib : GoLib URL Time) (base : String)
    (stock : List SitemapElement) (x : Nat)
    (h : countRuleFires lib base stock x = true) :
    (stateBefore lib base stock x).temp.length ≤ 50000 ∧
    ((stateBefore lib base stock x).counts = 0 →
      (stateBefore lib base stock x).temp.length = 50000) ∧
    (stateBefore lib base stock (x + 1)).result =
      GoMap.set (stateBefore lib base stock x).result
        (sprintfSD base (stateBefore lib base stock x).counts)
        (stateBefore lib base stock x).temp := by
  unfold countRuleFires at h
  cases he : stock[x]? with
  | none => rw [he] at h; cases h
  | some e =>
    rw [he] at h
    simp only [Bool.and_eq_true, Bool.not_eq_true', decide_eq_false_iff_not,
      decide_eq_true_eq] at h
    obtain ⟨hs, hc⟩ := h
    obtain ⟨hx, _⟩ := List.getElem?_eq_some.1 he
    have hlen : (stock.take x).length = x := by
      rw [List.length_take]; omega
    have hinv := SplitInv.of_splitLoop lib base (stock.take x)
    have hcnt := countInv_splitLoop lib base (stock.take x)
    rw [hlen] at hcnt
    have hle : (stateBefore lib base stock x).temp.length ≤ 50000 := hinv.temp_len
    refine ⟨hle, ?_, ?_⟩
    · intro h0
      obtain ⟨z1, z2⟩ := hcnt.zero h0
      unfold stateBefore at hc hle ⊢
      rw [z1] at hc
      omega
    · rw [stateBefore_succ lib base stock x e he,
        splitStep_count lib base _ x e (by omega) (by omega)]

theorem countRuleFires_boundaryStock :
    countRuleFires sampleLib "sitemap" boundaryStock 50000 = true :=
  countRuleFires_first sampleLib "sitemap" (List.replicate 50000 entryA) []
    entryB (List.length_replicate _ _) sumSizer_boundaryStock

/-- Witness of the amended C17: in `boundaryStock` the count rule fires at index 50000,
with the segment counter at 0. -/
theorem countRule_buffer_length_witness :
    countRuleFires sampleLib "sitemap" boundaryStock 50000 = true ∧
    (stateBefore sampleLib "sitemap" boundaryStock 50000).temp.length ≤ 50000 ∧
    ((stateBefore sampleLib "sitemap" boundaryStock 50000).counts = 0 →
      (stateBefore sampleLib "sitemap" boundaryStock 50000).temp.length = 50000) ∧
    (stateBefore sampleLib "sitemap" boundaryStock (50000 + 1)).result =
      GoMap.set (stateBefore sampleLib "sitemap" boundaryStock 50000).result
        (sprintfSD "sitemap" (stateBefore sampleLib "sitemap" boundaryStock 50000).counts)
        (stateBefore sampleLib "sitemap" boundaryStock 50000).temp :=
  ⟨countRuleFires_boundaryStock,
   countRule_buffer_length sampleLib "sitemap" boundaryStock 50000
     countRuleFires_boundaryStock⟩

/-- A turn of the loop that crosses no boundary, whatever the segment counter. -/
theorem splitStep_place_fields (lib : GoLib URL Time) (base : String) (st : SplitState)
    (x : Nat) (e : SitemapElement) (hx : x < st.previos + 50000)
    (hs : st.size + Sizer lib e < 52428800) :
    (splitStep lib base st (x, e)).counts = st.counts ∧
    (splitStep lib base st (x, e)).previos = st.previos ∧
    (splitStep lib base st (x, e)).size = st.size + Sizer lib e ∧
    (splitStep lib base st (x, e)).temp = st.temp ++ [e] := by
  unfold splitStep
  simp only []
  have h1 : ¬ (st.size + Sizer lib e ≥ 52428800) := by omega
  have h2 : ¬ ((x : Int) - (st.previos : Int) ≥ 50000) := by omega
  rw [if_neg h1, if_neg h2]
  exact ⟨rfl, rfl, rfl, rfl⟩

/-- The loop over a run of entries that crosses no boundary, whatever the segment
counter. -/
theorem splitFold_place_fields (lib : GoLib URL Time) (base : String)
    (l : List SitemapElement) :
    ∀ (n : Nat) (st : SplitState), n + l.length ≤ st.previos + 50000 →
      st.size + sumSizer lib l < 52428800 →
      ((l.enumFrom n).foldl (splitStep lib base) st).counts = st.counts ∧
      ((l.enumFrom n).foldl (splitStep lib base) st).previos = st.previos ∧
      ((l.enumFrom n).foldl (splitStep lib base) st).size = st.size + sumSizer lib l ∧
      ((l.enumFrom n).foldl (splitStep lib base) st).temp = st.temp ++ l := by
  induction l with
  | nil => intro n st _ _; simp [sumSizer]
  | cons e t ih =>
    intro n st hn hs
    rw [sumSizer_cons] at hs
    rw [List.length_cons] at hn
    obtain ⟨b1, b2, b3, b4⟩ := splitStep_place_fields lib base st n e (by omega) (by omega)
    obtain ⟨a1, a2, a3, a4⟩ := ih (n + 1) (splitStep lib base st (n, e))
      (by rw [b2]; omega) (by rw [b3]; omega)
    simp only [List.enumFrom_cons, List.foldl_cons]
    refine ⟨by rw [a1, b1], by rw [a2, b2], ?_, ?_⟩
    · rw [a3, b3, sumSizer_cons]; omega
    · rw [a4, b4]; simp

/-- A stock that crosses the count boundary twice: the second time, at index 100000,
the buffer holds the 49999 entries read since the first. -/
theorem countRuleFires_second (lib : GoLib URL Time) (base : String)
    (first mid r : List SitemapElement) (b c : SitemapElement)
    (hlen1 : first.length = 50000) (hlen2 : mid.length = 49999)
    (hsize : sumSizer lib (first ++ [b]) + sumSizer lib mid + Sizer lib c < 52428800) :
    countRuleFires lib base (((first ++ [b]) ++ mid) ++ c :: r) 100000 = true ∧
    (stateBefore lib base (((first ++ [b]) ++ mid) ++ c :: r) 100000).temp = mid := by
  have hsum := sumSizer_append lib first [b]
  rw [sumSizer_singleton] at hsum
  obtain ⟨_, a2, a3, _, _⟩ := splitLoop_of_place lib base first (by omega) (by omega)
  have hpre : ((first ++ [b]) ++ mid).length = 100000 := by
    simp only [List.length_append, List.length_singleton]; omega
  have hfb : (first ++ [b]).length = 50001 := by
    simp only [List.length_append, List.length_singleton]; omega
  -- the state after the first boundary
  have hstep := splitStep_count lib base (splitLoop lib base first) 50000 b
    (by rw [a3]; omega) (by rw [a2])
  have hst1 : splitLoop lib base (first ++ [b]) =
      splitStep lib base (splitLoop lib base first) (50000, b) := by
    rw [splitLoop_snoc, hlen1]
  have c2 : (splitLoop lib base (first ++ [b])).previos = 50000 := by
    rw [hst1, hstep]
  have c3 : (splitLoop lib base (first ++ [b])).size = sumSizer lib first + Sizer lib b := by
    rw [hst1, hstep, a3]
  have c4 : (splitLoop lib base (first ++ [b])).temp = [] := by
    rw [hst1, hstep]
  -- the run up to the second boundary
  obtain ⟨_, d2, d3, d4⟩ := splitFold_place_fields lib base mid 50001
    (splitLoop lib base (first ++ [b])) (by rw [c2]; omega) (by rw [c3]; omega)
  have hst2 : stateBefore lib base (((first ++ [b]) ++ mid) ++ c :: r) 100000 =
      (mid.enumFrom 50001).foldl (splitStep lib base) (splitLoop lib base (first ++ [b])) := by
    rw [← hpre, stateBefore_length, splitLoop_append, hfb]
  have hget : (((first ++ [b]) ++ mid) ++ c :: r)[100000]? = some c := by
    rw [List.getElem?_append_right (by omega), hpre]
    simp
  refine ⟨?_, ?_⟩
  · unfold countRuleFires
    rw [hget]
    simp only [hst2, d2, d3, c2, c3]
    have h1 : ¬ (sumSizer lib first + Sizer lib b + sumSizer lib mid + Sizer lib c
        ≥ 52428800) := by omega
    simp [h1]
  · rw [hst2, d4, c4, List.nil_append]

/-- C17 as stated fails at `twoBoundaryStock`, 100001 entries: the count rule fires a
second time at index 100000, and the buffer it stores holds 49999 entries. -/
theorem countRule_buffer_49999 :
    countRuleFires sampleLib "sitemap" twoBoundaryStock 100000 = true ∧
    (stateBefore sampleLib "sitemap" twoBoundaryStock 100000).temp.length = 49999 := by
  have hA : Sizer sampleLib entryA = 40 := by decide
  have hB : Sizer sampleLib entryB = 40 := by decide
  have hsize : sumSizer sampleLib (List.replicate 50000 entryA ++ [entryB]) +
      sumSizer sampleLib (List.replicate 49999 entryA) + Sizer sampleLib entryB
      < 52428800 := by
    rw [sumSizer_append, sumSizer_singleton, sumSizer_replicate, sumSizer_replicate, hA, hB]
    norm_num
  obtain ⟨h1, h2⟩ := countRuleFires_second sampleLib "sitemap"
    (List.replicate 50000 entryA) (List.replicate 49999 entryA) [] entryB entryB
    (List.length_replicate _ _) (List.length_replicate _ _) hsize
  have hdef : twoBoundaryStock =
      ((List.replicate 50000 entryA ++ [entryB]) ++ List.replicate 49999 entryA) ++
        [entryB] := rfl
  rw [hdef]
  exact ⟨h1, by rw [h2]; exact List.length_replicate _ _⟩

/-! ## `SplitStock`: the names of the segments -/

theorem toDigitsCore_length_le (fuel : Nat) :
    ∀ (n : Nat) (ds : List Char), ds.length ≤ (Nat.toDigitsCore 10 fuel n ds).length := by
  induction fuel with
  | zero => intro n ds; simp [Nat.toDigitsCore]
  | succ f ih =>
    intro n ds
    simp only [Nat.toDigitsCore]
    split_ifs
    · simp
    · have := ih (n / 10) (Nat.digitChar (n % 10) :: ds)
      simp only [List.length_cons] at this
      omega

theorem toDigits_ne_zero (c : Nat) (h : 1 ≤ c) : Nat.toDigits 10 c ≠ ['0'] := by
  unfold Nat.toDigits
  simp only [Nat.toDigitsCore]
  split_ifs with h0
  · have hc : c < 10 := by omega
    have hmod : c % 10 = c := Nat.mod_eq_of_lt hc
    rw [hmod]
    interval_cases c <;> decide
  · intro heq
    have := toDigitsCore_length_le c (c / 10) [Nat.digitChar (c % 10)]
    rw [heq] at this
    simp at this
    cases c with
    | zero => omega
    | succ k =>
      simp only [Nat.toDigitsCore] at heq
      split_ifs at heq
      · simp at heq
      · have h2 := toDigitsCore_length_le k ((k + 1) / 10 / 10)
          [Nat.digitChar ((k + 1) / 10 % 10), Nat.digitChar ((k + 1) % 10)]
        rw [heq] at h2
        simp at h2

theorem toString_ne_zero (c : Nat) (h : 1 ≤ c) : toString c ≠ "0" := by
  intro heq
  have h1 : toString c = String.mk (Nat.toDigits 10 c) := rfl
  rw [h1] at heq
  have h2 := congrArg String.data heq
  exact toDigits_ne_zero c h h2

theorem toString_ne_empty (c : Nat) : toString c ≠ "" := by
  intro heq
  have h1 : toString c = String.mk (Nat.toDigits 10 c) := rfl
  rw [h1] at heq
  have h2 := congrArg String.data heq
  have h3 : (Nat.toDigits 10 c).length = 0 := by
    have h4 : Nat.toDigits 10 c = [] := h2
    rw [h4]; rfl
  unfold Nat.toDigits at h3
  simp only [Nat.toDigitsCore] at h3
  split_ifs at h3
  · simp at h3
  · have := toDigitsCore_length_le c (c / 10) [Nat.digitChar (c % 10)]
    simp only [List.length_singleton] at this
    omega

theorem sprintfSD_ne_base (base : String) (c : Nat) : sprintfSD base c ≠ base := by
  intro h
  unfold sprintfSD at h
  have h1 := congrArg String.data h
  rw [String.data_append] at h1
  have h2 : (toString c).data = [] := by
    have := List.append_cancel_left (h1.trans (List.append_nil _).symm)
    exact this
  exact toString_ne_empty c (by
    have h3 : toString c = String.mk (toString c).data := rfl
    rw [h3, h2])

theorem sprintfSD_ne_base_zero (base : String) (c : Nat) (hc : 1 ≤ c) :
    sprintfSD base c ≠ base ++ "0" := by
  intro h
  unfold sprintfSD at h
  have h1 := congrArg String.data h
  rw [String.data_append, String.data_append] at h1
  have h2 := List.append_cancel_left h1
  exact toString_ne_zero c hc (by
    have h3 : toString c = String.mk (toString c).data := rfl
    rw [h3, h2])

theorem GoMap.get?_set_ne {V : Type} (m : GoMap String V) (k k' : String) (v : V)
    (h : k ≠ k') : GoMap.get? (GoMap.set m k v) k' = GoMap.get? m k' := by
  induction m with
  | nil => simp [GoMap.set, GoMap.get?, List.find?, h]
  | cons hd t ih =>
    obtain ⟨a, b⟩ := hd
    simp only [GoMap.set]
    split_ifs with hak
    · subst hak
      simp [GoMap.get?, List.find?, h]
    · unfold GoMap.get? at ih ⊢
      by_cases hk' : a = k'
      · simp [List.find?, hk']
      · simp only [List.find?, hk', decide_False]
        exact ih

/-! ## `SplitStock`: the first segment is stored twice -/

theorem split_at_index (l : List SitemapElement) (i : Nat) (e : SitemapElement)
    (h : l[i]? = some e) : l = l.take i ++ e :: l.drop (i + 1) := by
  have h1 : l.take (i + 1) = l.take i ++ [e] := by
    rw [List.take_succ, h]; rfl
  have h2 := List.take_append_drop (i + 1) l
  rw [h1, List.append_assoc] at h2
  exact h2.symm

theorem length_take_of_getElem? (l : List SitemapElement) (i : Nat) (e : SitemapElement)
    (h : l[i]? = some e) : (l.take i).length = i := by
  obtain ⟨hi, _⟩ := List.getElem?_eq_some.1 h
  rw [List.length_take]; omega

theorem foldl_splitStep_inv (lib : GoLib URL Time) (base : String)
    (P : SplitState → Prop)
    (hstep : ∀ st xe, P st → P (splitStep lib base st xe)) :
    ∀ (l : List (Nat × SitemapElement)) (st : SplitState), P st →
      P (l.foldl (splitStep lib base) st) := by
  intro l
  induction l with
  | nil => intro st h; exact h
  | cons xe t ih => intro st h; exact ih _ (hstep st xe h)

/-- The loop over entries among which no boundary is crossed. -/
theorem splitLoop_no_boundary (lib : GoLib URL Time) (base : String)
    (l : List SitemapElement) :
    (∀ i, i < l.length → crossesBoundary lib base l i = false) →
    (splitLoop lib base l).counts = 0 ∧ (splitLoop lib base l).previos = 0 ∧
    (splitLoop lib base l).temp = l ∧
    (l = [] → (splitLoop lib base l).result = []) ∧
    (l ≠ [] → (splitLoop lib base l).result = [(base, l)]) := by
  induction l using List.reverseRecOn with
  | nil => intro _; exact ⟨rfl, rfl, rfl, fun _ => rfl, fun h => absurd rfl h⟩
  | append_singleton l e ih =>
    intro h
    have hl : ∀ i, i < l.length → crossesBoundary lib base l i = false := by
      intro i hi
      rw [← crossesBoundary_append_left lib base l [e] i hi]
      exact h i (by simp; omega)
    obtain ⟨a1, a2, a3, a4, a5⟩ := ih hl
    have hnew := crossesBoundary_at_length lib base l [] e
    rw [h l.length (by simp)] at hnew
    have hs : ¬ ((splitLoop lib base l).size + Sizer lib e ≥ 52428800) := by
      intro hs
      simp [hs] at hnew
    have hc : ¬ ((l.length : Int) - ((splitLoop lib base l).previos : Int) ≥ 50000) := by
      intro hc
      simp [hs, hc] at hnew
    have hres : GoMap.set (splitLoop lib base l).result base (l ++ [e]) =
        [(base, l ++ [e])] := by
      by_cases hnil : l = []
      · rw [a4 hnil]; rfl
      · rw [a5 hnil]; simp [GoMap.set]
    rw [splitLoop_snoc]
    unfold splitStep
    simp only []
    rw [if_neg hs, if_neg hc, if_pos a1]
    refine ⟨a1, a2, by simp [a3], fun hnil => absurd hnil (by simp), fun _ => ?_⟩
    simp only [a3]
    exact hres

theorem crossesBoundary_false_of_small (lib : GoLib URL Time) (base : String)
    (stock : List SitemapElement) (i : Nat) (hi : i < 50000)
    (hsize : sumSizer lib stock < 52428800) :
    crossesBoundary lib base stock i = false := by
  cases he : stock[i]? with
  | none => simp [crossesBoundary, sizeRuleFires, countRuleFires, he]
  | some e =>
    have hdec := split_at_index stock i e he
    have hlen := length_take_of_getElem? stock i e he
    have hsum : sumSizer lib stock =
        sumSizer lib (stock.take i) + (Sizer lib e + sumSizer lib (stock.drop (i + 1))) := by
      conv_lhs => rw [hdec]
      rw [sumSizer_append, sumSizer_cons]
    obtain ⟨_, a2, a3, _, _⟩ := splitLoop_of_place lib base (stock.take i)
      (by omega) (by omega)
    have hnew := crossesBoundary_at_length lib base (stock.take i) (stock.drop (i + 1)) e
    rw [← hdec, hlen, a2, a3] at hnew
    rw [hnew]
    have h1 : ¬ (sumSizer lib (stock.take i) + Sizer lib e ≥ 52428800) := by omega
    simp [h1]
    omega

/-- C18: for every base name and every stock whose first boundary is crossed at an
index `x` with at least one entry placed before (`0 < x`), the map returned by
`SplitStock` has the key `base` and the key `base0`, and both hold the same list, the
entries `stock[0..x)`. -/
theorem SplitStock_first_segment_twice (lib : GoLib URL Time) (base : String)
    (stock : List SitemapElement) (x : Nat) (hx : 0 < x)
    (hfirst : ∀ i, i < x → crossesBoundary lib base stock i = false)
    (hb : crossesBoundary lib base stock x = true) :
    GoMap.get? (SplitStock lib base stock) base = some (stock.take x) ∧
    GoMap.get? (SplitStock lib base stock) (base ++ "0") = some (stock.take x) := by
  cases he : stock[x]? with
  | none => simp [crossesBoundary, sizeRuleFires, countRuleFires, he] at hb
  | some e =>
    have hdec := split_at_index stock x e he
    have hlen := length_take_of_getElem? stock x e he
    have hne : stock.take x ≠ [] := by
      intro h; rw [h] at hlen; simp at hlen; omega
    -- the state before the turn `x`
    have hl : ∀ i, i < (stock.take x).length →
        crossesBoundary lib base (stock.take x) i = false := by
      intro i hi
      rw [← crossesBoundary_append_left lib base (stock.take x) (e :: stock.drop (x + 1)) i hi,
        ← hdec]
      exact hfirst i (by omega)
    obtain ⟨a1, a2, a3, _, a5⟩ := splitLoop_no_boundary lib base (stock.take x) hl
    have a5 := a5 hne
    -- the turn `x` crosses a boundary
    have hnew := crossesBoundary_at_length lib base (stock.take x) (stock.drop (x + 1)) e
    rw [← hdec, hlen, hb] at hnew
    have hkey : sprintfSD base 0 = base ++ "0" := rfl
    have hstep : (splitStep lib base (splitLoop lib base (stock.take x)) (x, e)).counts = 1 ∧
        (splitStep lib base (splitLoop lib base (stock.take x)) (x, e)).result =
          [(base, stock.take x), (base ++ "0", stock.take x)] := by
      unfold splitStep
      simp only []
      split_ifs with hs hc
      · simp [a1, a3, a5, hkey, GoMap.set, ne_append_zero]
      · simp [a1, a3, a5, hkey, GoMap.set, ne_append_zero]
      · simp [hs, hc] at hnew
    -- the turns after `x` store under other names
    have hinv := foldl_splitStep_inv lib base
      (fun st => 1 ≤ st.counts ∧ GoMap.get? st.result base = some (stock.take x) ∧
        GoMap.get? st.result (base ++ "0") = some (stock.take x))
      (by
        intro st xe ⟨h1, h2, h3⟩
        have k1 := sprintfSD_ne_base base st.counts
        have k2 := sprintfSD_ne_base_zero base st.counts h1
        have h0 : st.counts ≠ 0 := by omega
        unfold splitStep
        simp only []
        split_ifs
        · exact ⟨by simp, by rw [GoMap.get?_set_ne _ _ _ _ k1]; exact h2,
            by rw [GoMap.get?_set_ne _ _ _ _ k2]; exact h3⟩
        · exact ⟨by simp, by rw [GoMap.get?_set_ne _ _ _ _ k1]; exact h2,
            by rw [GoMap.get?_set_ne _ _ _ _ k2]; exact h3⟩
        · exact ⟨h1, by rw [GoMap.get?_set_ne _ _ _ _ k1]; exact h2,
            by rw [GoMap.get?_set_ne _ _ _ _ k2]; exact h3⟩)
      ((stock.drop (x + 1)).enumFrom (x + 1))
      (splitStep lib base (splitLoop lib base (stock.take x)) (x, e))
      ⟨by rw [hstep.1], by
        rw [hstep.2]
        simp [GoMap.get?, List.find?], by
        rw [hstep.2]
        simp [GoMap.get?, List.find?, ne_append_zero]⟩
    have hall : SplitStock lib base stock =
        (((stock.drop (x + 1)).enumFrom (x + 1)).foldl (splitStep lib base)
          (splitStep lib base (splitLoop lib base (stock.take x)) (x, e))).result := by
      unfold SplitStock
      conv_lhs => rw [hdec]
      have happ : stock.take x ++ e :: stock.drop (x + 1) =
          (stock.take x ++ [e]) ++ stock.drop (x + 1) := by simp
      rw [happ, splitLoop_append, splitLoop_snoc]
      simp only [List.length_append, List.length_singleton, hlen]
    rw [hall]
    exact ⟨hinv.2.1, hinv.2.2⟩

/-- Witness of C18: `boundaryStock`, 50001 small entries, where the first boundary is
the count boundary at index 50000. -/
theorem SplitStock_first_segment_twice_witness :
    0 < 50000 ∧
    (∀ i, i < 50000 → crossesBoundary sampleLib "sitemap" boundaryStock i = false) ∧
    crossesBoundary sampleLib "sitemap" boundaryStock 50000 = true ∧
    GoMap.get? (SplitStock sampleLib "sitemap" boundaryStock) "sitemap" =
      some (boundaryStock.take 50000) ∧
    GoMap.get? (SplitStock sampleLib "sitemap" boundaryStock) ("sitemap" ++ "0") =
      some (boundaryStock.take 50000) :=
  have hfirst : ∀ i, i < 50000 →
      crossesBoundary sampleLib "sitemap" boundaryStock i = false :=
    fun i hi => crossesBoundary_false_of_small sampleLib "sitemap" boundaryStock i hi
      sumSizer_boundaryStock
  ⟨by omega, hfirst, crossesBoundary_boundaryStock,
   SplitStock_first_segment_twice sampleLib "sitemap" boundaryStock 50000 (by omega)
     hfirst crossesBoundary_boundaryStock⟩

/-! ## The escaping pass on bytes: agreement on valid UTF-8, and what is lost -/

theorem char_toNat_valid (c : Char) :
    c.toNat < 0xD800 ∨ (0xDFFF < c.toNat ∧ c.toNat < 0x110000) :=
  c.valid

theorem decoderune_two (s0 s1 : Nat) (rest : List Nat) (h0 : 0xC0 ≤ s0) (h0' : s0 < 0xE0)
    (h1 : 0x80 ≤ s1) (h1' : s1 ≤ 0xBF) (hr : 0x7F < s0 % 32 * 64 + s1 % 64) :
    decoderune (s0 :: s1 :: rest) = (s0 % 32 * 64 + s1 % 64, 2) := by
  simp [decoderune, isCont, h0, h0', h1, h1', hr]

theorem decoderune_three (s0 s1 s2 : Nat) (rest : List Nat) (h0 : 0xE0 ≤ s0)
    (h0' : s0 < 0xF0) (h1 : 0x80 ≤ s1) (h1' : s1 ≤ 0xBF) (h2 : 0x80 ≤ s2) (h2' : s2 ≤ 0xBF)
    (hr : 0x7FF < s0 % 16 * 4096 + s1 % 64 * 64 + s2 % 64)
    (hs : ¬ (0xD800 ≤ s0 % 16 * 4096 + s1 % 64 * 64 + s2 % 64 ∧
      s0 % 16 * 4096 + s1 % 64 * 64 + s2 % 64 ≤ 0xDFFF)) :
    decoderune (s0 :: s1 :: s2 :: rest) = (s0 % 16 * 4096 + s1 % 64 * 64 + s2 % 64, 3) := by
  have hn : ¬ (0xC0 ≤ s0 ∧ s0 < 0xE0) := by omega
  simp only [decoderune, isCont]
  rw [if_neg hn, if_pos ⟨h0, h0'⟩]
  simp only [h1, h1', h2, h2', decide_True, Bool.and_self, if_true]
  rw [if_pos ⟨hr, hs⟩]

theorem decoderune_four (s0 s1 s2 s3 : Nat) (rest : List Nat) (h0 : 0xF0 ≤ s0)
    (h0' : s0 < 0xF8) (h1 : 0x80 ≤ s1) (h1' : s1 ≤ 0xBF) (h2 : 0x80 ≤ s2) (h2' : s2 ≤ 0xBF)
    (h3 : 0x80 ≤ s3) (h3' : s3 ≤ 0xBF)
    (hr : 0xFFFF < s0 % 8 * 262144 + s1 % 64 * 4096 + s2 % 64 * 64 + s3 % 64)
    (hm : s0 % 8 * 262144 + s1 % 64 * 4096 + s2 % 64 * 64 + s3 % 64 ≤ 0x10FFFF) :
    decoderune (s0 :: s1 :: s2 :: s3 :: rest) =
      (s0 % 8 * 262144 + s1 % 64 * 4096 + s2 % 64 * 64 + s3 % 64, 4) := by
  have hn : ¬ (0xC0 ≤ s0 ∧ s0 < 0xE0) := by omega
  have hn' : ¬ (0xE0 ≤ s0 ∧ s0 < 0xF0) := by omega
  simp only [decoderune, isCont]
  rw [if_neg hn, if_neg hn', if_pos ⟨h0, h0'⟩]
  simp only [h1, h1', h2, h2', h3, h3', decide_True, Bool.and_self, if_true]
  rw [if_pos ⟨hr, hm⟩]

/-- The `range` loop reads the encoding of a character back as that character. -/
theorem rangeRunes_encode (c : Char) (rest : List Nat) :
    rangeRunes (utf8EncodeChar c ++ rest) 0 = c :: rangeRunes rest 0 := by
  have hv := char_toNat_valid c
  have hc : Char.ofNat c.toNat = c := Char.ofNat_toNat c
  unfold utf8EncodeChar
  simp only []
  split_ifs with h1 h2 h3
  · simp only [List.cons_append, List.nil_append]
    simp only [rangeRunes]
    rw [if_pos h1, hc]
  · have hd := decoderune_two (0xC0 + c.toNat / 64) (0x80 + c.toNat % 64) rest
      (by omega) (by omega) (by omega) (by omega) (by omega)
    have hval : (0xC0 + c.toNat / 64) % 32 * 64 + (0x80 + c.toNat % 64) % 64 = c.toNat := by
      omega
    have hb : ¬ (0xC0 + c.toNat / 64 < 0x80) := by omega
    simp only [List.cons_append, List.nil_append]
    simp only [rangeRunes]
    rw [if_neg hb, hd]
    dsimp only
    rw [hval, hc]
    simp [rangeRunes]
  · have hd := decoderune_three (0xE0 + c.toNat / 4096) (0x80 + c.toNat / 64 % 64)
      (0x80 + c.toNat % 64) rest
      (by omega) (by omega) (by omega) (by omega) (by omega) (by omega) (by omega) (by omega)
    have hval : (0xE0 + c.toNat / 4096) % 16 * 4096 + (0x80 + c.toNat / 64 % 64) % 64 * 64 +
        (0x80 + c.toNat % 64) % 64 = c.toNat := by
      omega
    have hb : ¬ (0xE0 + c.toNat / 4096 < 0x80) := by omega
    simp only [List.cons_append, List.nil_append]
    simp only [rangeRunes]
    rw [if_neg hb, hd]
    dsimp only
    rw [hval, hc]
    simp [rangeRunes]
  · have hd := decoderune_four (0xF0 + c.toNat / 262144) (0x80 + c.toNat / 4096 % 64)
      (0x80 + c.toNat / 64 % 64) (0x80 + c.toNat % 64) rest
      (by omega) (by omega) (by omega) (by omega) (by omega) (by omega) (by omega) (by omega)
      (by omega) (by omega)
    have hval : (0xF0 + c.toNat / 262144) % 8 * 262144 +
        (0x80 + c.toNat / 4096 % 64) % 64 * 4096 + (0x80 + c.toNat / 64 % 64) % 64 * 64 +
        (0x80 + c.toNat % 64) % 64 = c.toNat := by
      omega
    have hb : ¬ (0xF0 + c.toNat / 262144 < 0x80) := by omega
    simp only [List.cons_append, List.nil_append]
    simp only [rangeRunes]
    rw [if_neg hb, hd]
    dsimp only
    rw [hval, hc]
    simp [rangeRunes]

theorem rangeRunes_utf8 (l : List Char) :
    rangeRunes (l.flatMap utf8EncodeChar) 0 = l := by
  induction l with
  | nil => rfl
  | cons c t ih => rw [List.flatMap_cons, rangeRunes_encode, ih]

/-- On a valid UTF-8 string the pass over the bytes is the pass over the characters. -/
theorem escapeBytes_utf8Bytes (s : String) : escapeBytes (utf8Bytes s) = escapePass s := by
  unfold escapeBytes utf8Bytes escapePass
  rw [rangeRunes_utf8]

/-- C20 as stated fails at the Go strings `"\xff"` and `"\xfe"`, one invalid byte each:
the loop of `filters` reads both as U+FFFD, so the two different strings escape to the
same string, the one the valid string U+FFFD escapes to; no function gives every string
back from its escaped form. -/
theorem escapeBytes_not_injective :
    ([0xFF] : List Nat) ≠ [0xFE] ∧
    escapeBytes [0xFF] = escapeBytes [0xFE] ∧
    escapeBytes [0xFF] = escapeBytes (utf8Bytes (String.singleton (Char.ofNat 0xFFFD))) ∧
    ¬ ∃ u : String → List Nat, ∀ bs : List Nat, u (escapeBytes bs) = bs := by
  have h : escapeBytes [0xFF] = escapeBytes [0xFE] := by decide
  refine ⟨by decide, h, by decide, ?_⟩
  rintro ⟨u, hu⟩
  have h1 := hu [0xFF]
  rw [h, hu [0xFE]] at h1
  exact absurd h1 (by decide)

/-- C20 as amended: on the valid UTF-8 strings the escaping pass of `filters` loses no
information: `unescape` gives every valid UTF-8 string back from its escaped form, so
two different valid UTF-8 locations never escape to the same string. -/
theorem escapeBytes_utf8_left_inverse :
    (∀ s : String, unescape (escapeBytes (utf8Bytes s)) = s) ∧
    Function.Injective (fun s : String => escapeBytes (utf8Bytes s)) := by
  have h : ∀ s : String, unescape (escapeBytes (utf8Bytes s)) = s := by
    intro s
    rw [escapeBytes_utf8Bytes]
    exact unescape_escapePass.1 s
  refine ⟨h, ?_⟩
  intro s t hst
  have h1 := congrArg unescape hst
  simp only [h] at h1
  exact h1

end Gositemap
